import Mathlib

/-!
# HX711 load-cell driver: shallow embedding and verified properties

The definitions below embed `src/hal/src/hx711.c` (the bit-banged HX711 driver) and
`src/app/src/load_cell_sensor.c` (tare / calibrate / weight conversion).

* The GPIO value files, the monotonic clock, `nanosleep` and the mutexes are the environment.
  An `Env` fixes what the k-th `read` of a value file, the k-th `write` and the k-th
  `clock_gettime` will deliver; a `Bus` counts how many of each have happened and records the
  calls in order.
* Integer types are those of 64-bit Linux: `int` and `int32_t` have 32 bits, `long` and
  `int64_t` have 64.  An `int32_t` is kept as a 32-bit pattern (`Nat`, reduced `% 2 ^ 32`)
  while the code does bit operations on it and is converted to `Int` by `toInt32`; other
  arithmetic is `Int` arithmetic wrapped by `wrapInt`.
* A `double` is an IEEE 754 binary64 number; `*` and `/` round to nearest, ties to even.
* The `while` loop of `hx711_ready_wait` may spin for ever, so it takes a fuel argument and
  returns `none` when the fuel is used up.
-/

namespace HX711

set_option maxRecDepth 100000

/-! ## Machine integers -/

/-- Two's-complement wrap of a mathematical integer to a signed `w`-bit integer. -/
def wrapInt (w : Nat) (x : Int) : Int :=
  (x + 2 ^ (w - 1)) % 2 ^ w - 2 ^ (w - 1)

/-- Signed value of a 32-bit pattern. -/
def toInt32 (p : Nat) : Int :=
  if p % 2 ^ 32 < 2 ^ 31 then ((p % 2 ^ 32 : Nat) : Int) else ((p % 2 ^ 32 : Nat) : Int) - 2 ^ 32

/-- Bitwise complement of a 32-bit pattern (the C operator `~` on `int`). -/
def not32 (p : Nat) : Nat :=
  2 ^ 32 - 1 - p % 2 ^ 32

/-! ## Constants of the system headers (Linux values) -/

def EINVAL : Int := 22

def ETIMEDOUT : Int := 110

def EIO : Int := 5

def NSEC_PER_MSEC : Int := 1000000

/-! ## Data model -/

/-- Gain / channel selection, `hal/hx711.h`. -/
inductive hx711_gain_t where
  | HX711_GAIN_128
  | HX711_GAIN_64
  | HX711_GAIN_32
  deriving DecidableEq, Repr

/-- The driver handle, `hal/hx711.h` (the mutex is represented by the lock events of the
trace). -/
structure hx711_t where
  dout_gpio : Int
  sck_gpio : Int
  gain_sel : hx711_gain_t
  fd_dout : Int
  fd_sck : Int
  deriving DecidableEq, Repr

/-- A `struct timespec`. -/
structure Timespec where
  tv_sec : Int
  tv_nsec : Int
  deriving DecidableEq, Repr

/-- What `lseek` + `read` of one character of a GPIO value file delivers: the character, or a
failure leaving `errno`. -/
inductive ReadOutcome where
  | byte (ch : Char)
  | fail (errno : Nat)
  deriving DecidableEq, Repr

/-- What `lseek` + `write` of one character to a GPIO value file delivers. -/
inductive WriteOutcome where
  | ok
  | fail (errno : Nat)
  deriving DecidableEq, Repr

/-- The two mutexes of the program: `hx711_t.lock` and `load_cell_sensor_t.lock`. -/
inductive Mutex where
  | hx711
  | load_cell
  deriving DecidableEq, Repr

/-- The calls the program makes on its environment, in the order it makes them. -/
inductive Event where
  | write (fd : Int) (level : Bool)
  | read (fd : Int)
  | clock_gettime
  | nanosleep (tv_sec : Int) (tv_nsec : Int)
  | lock (m : Mutex)
  | unlock (m : Mutex)
  deriving DecidableEq, Repr

/-- The behaviour of the environment: the outcome of the k-th value-file read, of the k-th
value-file write and the k-th reading of the monotonic clock. -/
structure Env where
  dout : Nat → ReadOutcome
  sck : Nat → WriteOutcome
  clock : Nat → Timespec

/-- The state threaded through the driver: how many reads, writes and clock readings have been
made, and the calls made so far (oldest first). -/
structure Bus where
  reads : Nat
  writes : Nat
  clocks : Nat
  trace : List Event
  deriving DecidableEq, Repr

/-! ## GPIO and timing primitives (`hx711.c`, lines 60-88) -/

/-- The function `gpio_write_fd`: returns `0`, or `-errno` when the seek or the write fails. -/
def gpio_write_fd (env : Env) (fd : Int) (value : Nat) (bus : Bus) : Int × Bus :=
  let bus1 : Bus := { bus with writes := bus.writes + 1,
                               trace := bus.trace ++ [Event.write fd (value != 0)] }
  match env.sck bus.writes with
  | WriteOutcome.ok => (0, bus1)
  | WriteOutcome.fail errno => (-(errno : Int), bus1)

/-- The function `gpio_read_fd`: the return code and the content of `*value` afterwards, which is
`ch == '1'` on success and the old content on failure. -/
def gpio_read_fd (env : Env) (fd : Int) (value : Nat) (bus : Bus) : Int × Nat × Bus :=
  let bus1 : Bus := { bus with reads := bus.reads + 1, trace := bus.trace ++ [Event.read fd] }
  match env.dout bus.reads with
  | ReadOutcome.byte ch => (0, if ch = '1' then 1 else 0, bus1)
  | ReadOutcome.fail errno => (-(errno : Int), value, bus1)

/-- The function `sleep_us`: splits the microseconds into a `timespec` and calls `nanosleep`. -/
def sleep_us (us : Int) (bus : Bus) : Bus :=
  { bus with trace := bus.trace ++ [Event.nanosleep (Int.tdiv us 1000000)
                                                    (Int.tmod us 1000000 * 1000)] }

/-- The call `clock_gettime(CLOCK_MONOTONIC, ..)`. -/
def clock_gettime (env : Env) (bus : Bus) : Timespec × Bus :=
  (env.clock bus.clocks,
   { bus with clocks := bus.clocks + 1, trace := bus.trace ++ [Event.clock_gettime] })

def pthread_mutex_lock (m : Mutex) (bus : Bus) : Bus :=
  { bus with trace := bus.trace ++ [Event.lock m] }

def pthread_mutex_unlock (m : Mutex) (bus : Bus) : Bus :=
  { bus with trace := bus.trace ++ [Event.unlock m] }

/-! ## `hx711_ready_wait` (`hx711.c`, lines 129-147) -/

/-- The expression `(now.tv_sec - start.tv_sec) * 1000000000L + (now.tv_nsec - start.tv_nsec)`
in 64-bit `long` arithmetic. -/
def elapsed_ns (start now : Timespec) : Int :=
  wrapInt 64 ((now.tv_sec - start.tv_sec) * 1000000000 + (now.tv_nsec - start.tv_nsec))

/-- The `while (val != 0)` loop; one unit of fuel per iteration. -/
def hx711_ready_wait.loop (env : Env) (dev : hx711_t) (limit_ns : Int) (start : Timespec) :
    Nat → Nat → Bus → Option (Int × Bus)
  | 0, _, _ => none
  | fuel + 1, val, bus =>
    if val = 0 then some (0, bus)
    else
      let r := gpio_read_fd env dev.fd_dout val bus
      if r.1 < 0 then some (- EIO, r.2.2)
      else if r.2.1 = 0 then some (0, r.2.2)
      else
        let c := clock_gettime env r.2.2
        let ns := elapsed_ns start c.1
        if ns > limit_ns then some (- ETIMEDOUT, c.2)
        else hx711_ready_wait.loop env dev limit_ns start fuel r.2.1 (sleep_us 1000 c.2)

/-- The function `hx711_ready_wait`: `none` when the fuel does not suffice, else the return code
and the bus. -/
def hx711_ready_wait (fuel : Nat) (env : Env) (dev : hx711_t) (timeout_ms : Int) (bus : Bus) :
    Option (Int × Bus) :=
  let limit_ns := wrapInt 64 (timeout_ms * NSEC_PER_MSEC)
  let c := clock_gettime env bus
  hx711_ready_wait.loop env dev limit_ns c.1 fuel 1 c.2

/-! ## `read_raw_one` (`hx711.c`, lines 149-168) -/

/-- The 24 data pulses: `n` iterations still to run, `data` the accumulator (a 32-bit
pattern). -/
def read_raw_one.dataLoop (env : Env) (dev : hx711_t) : Nat → Nat → Bus → Nat × Bus
  | 0, data, bus => (data, bus)
  | n + 1, data, bus =>
    let w1 := gpio_write_fd env dev.fd_sck 1 bus
    let r := gpio_read_fd env dev.fd_dout 0 w1.2
    let bit := r.2.1
    let data1 := (data <<< 1 ||| (bit &&& 0x1)) % 2 ^ 32
    let w0 := gpio_write_fd env dev.fd_sck 0 r.2.2
    read_raw_one.dataLoop env dev n data1 w0.2

/-- The trailing gain pulses. -/
def read_raw_one.gainLoop (env : Env) (dev : hx711_t) : Nat → Bus → Bus
  | 0, bus => bus
  | n + 1, bus =>
    let w1 := gpio_write_fd env dev.fd_sck 1 bus
    let w0 := gpio_write_fd env dev.fd_sck 0 w1.2
    read_raw_one.gainLoop env dev n w0.2

/-- The number of trailing pulses chosen from `dev->gain_sel`. -/
def gain_pulses (dev : hx711_t) : Nat :=
  if dev.gain_sel = hx711_gain_t.HX711_GAIN_128 then 1
  else if dev.gain_sel = hx711_gain_t.HX711_GAIN_64 then 3 else 2

/-- The final `if (data & 0x800000) data |= ~0xFFFFFF;`. -/
def sign_extend (data : Nat) : Nat :=
  if data &&& 0x800000 ≠ 0 then data ||| not32 0xFFFFFF else data

def read_raw_one (env : Env) (dev : hx711_t) (bus : Bus) : Int × Bus :=
  let d := read_raw_one.dataLoop env dev 24 0 bus
  let bus1 := read_raw_one.gainLoop env dev (gain_pulses dev) d.2
  (toInt32 (sign_extend d.1), bus1)

/-! ## `hx711_read_average` (`hx711.c`, lines 170-188) -/

/-- The sampling loop: `n` iterations still to run, `sum` the `int64_t` accumulator. -/
def hx711_read_average.sumLoop (env : Env) (dev : hx711_t) : Nat → Int → Bus → Int × Bus
  | 0, sum, bus => (sum, bus)
  | n + 1, sum, bus =>
    let s := read_raw_one env dev bus
    hx711_read_average.sumLoop env dev n (wrapInt 64 (sum + s.1)) (sleep_us 2000 s.2)

/-- The function `hx711_read_average`.  `dev` and `out` are pointers: `none` is `NULL`, and
`out = some v` is a cell holding `v`.  The result is the return code, the content of the cell
afterwards and the bus; `none` when the readiness wait runs out of fuel. -/
def hx711_read_average (fuel : Nat) (env : Env) (dev : Option hx711_t) (samples : Int)
    (out : Option Int) (bus : Bus) : Option (Int × Option Int × Bus) :=
  match dev, out with
  | some d, some _ =>
    if samples ≤ 0 then some (- EINVAL, out, bus)
    else
      let bus1 := pthread_mutex_lock Mutex.hx711 bus
      match hx711_ready_wait fuel env d 1000 bus1 with
      | none => none
      | some (rc, bus2) =>
        if rc ≠ 0 then some (rc, out, pthread_mutex_unlock Mutex.hx711 bus2)
        else
          let s := hx711_read_average.sumLoop env d samples.toNat 0 bus2
          let bus3 := pthread_mutex_unlock Mutex.hx711 s.2
          some (0, some (wrapInt 32 (Int.tdiv s.1 samples)), bus3)
  | _, _ => some (- EINVAL, out, bus)

/-! ## IEEE 754 binary64 (`double`) arithmetic, as used by `load_cell_sensor.c` -/

/-- A `double`: not-a-number, an infinity, or the finite value `(-1)^neg * m * 2^e`. -/
inductive Double where
  | nan
  | inf (neg : Bool)
  | fin (neg : Bool) (m : Nat) (e : Int)
  deriving DecidableEq, Repr

/-- The finite values that are binary64 numbers in canonical form: a 53-bit significand that is
normal (`2^52 <= m`) or has the least exponent (subnormals and zero). -/
def Double.IsBinary64 : Double → Prop
  | Double.fin _ m e => m < 2 ^ 53 ∧ -1074 ≤ e ∧ e ≤ 971 ∧ (2 ^ 52 ≤ m ∨ e = -1074)
  | _ => True

def bitLength.go : Nat → Nat → Nat
  | 0, _ => 0
  | fuel + 1, n => if n = 0 then 0 else bitLength.go fuel (n / 2) + 1

/-- Number of binary digits of `n` (0 for 0). -/
def bitLength (n : Nat) : Nat :=
  bitLength.go n n

/-- The fraction `(n / d) * 2^k` as a numerator and a denominator. -/
def scaleFraction (n d : Nat) (k : Int) : Nat × Nat :=
  if 0 ≤ k then (n * 2 ^ k.toNat, d) else (n, d * 2 ^ (-k).toNat)

/-- The integer nearest to `N / D`, ties to the even one. -/
def roundHalfEven (N D : Nat) : Nat :=
  let q := N / D
  let r := N % D
  if 2 * r < D then q
  else if D < 2 * r then q + 1
  else if q % 2 = 0 then q else q + 1

/-- The exponent of the unit in the last place of the binary64 number nearest below the
positive value `(n / d) * 2^x`: the `e` with `2^52 <= (n / d) * 2^(x - e) < 2^53`, but at least
-1074. -/
def ulpExponent (n d : Nat) (x : Int) : Int :=
  let e1 : Int := (bitLength n : Int) - (bitLength d : Int) + x - 53
  let f := scaleFraction n d (x - e1)
  let e2 : Int := if f.1 / f.2 < 2 ^ 53 then e1 else e1 + 1
  max e2 (-1074)

/-- Round to nearest, ties to even (the default rounding of IEEE 754 arithmetic): the `double`
nearest to `(-1)^neg * (n / d) * 2^x`, for `d > 0`. -/
def Double.round (neg : Bool) (n d : Nat) (x : Int) : Double :=
  if n = 0 then Double.fin neg 0 (-1074)
  else
    let e := ulpExponent n d x
    let f := scaleFraction n d (x - e)
    let m := roundHalfEven f.1 f.2
    let m1 := if m = 2 ^ 53 then 2 ^ 52 else m
    let e1 := if m = 2 ^ 53 then e + 1 else e
    if 971 < e1 then Double.inf neg else Double.fin neg m1 e1

/-- The literal `0.0`. -/
def Double.zero : Double :=
  Double.fin false 0 (-1074)

/-- The `double` 1.0. -/
def Double.one : Double :=
  Double.fin false (2 ^ 52) (-52)

/-- The rational value of a finite `double` (0 for NaN and the infinities). -/
def Double.toRat : Double → ℚ
  | Double.fin s m e => (if s then -1 else 1) * (m : ℚ) * (2 : ℚ) ^ e
  | _ => 0

/-- Conversion `(double)` of a signed integer. -/
def Double.ofInt (z : Int) : Double :=
  Double.round (decide (z < 0)) z.natAbs 1 0

/-- The operator `*` on `double`. -/
def Double.mul : Double → Double → Double
  | Double.nan, _ => Double.nan
  | _, Double.nan => Double.nan
  | Double.inf s, Double.inf t => Double.inf (xor s t)
  | Double.inf s, Double.fin t m _ => if m = 0 then Double.nan else Double.inf (xor s t)
  | Double.fin s m _, Double.inf t => if m = 0 then Double.nan else Double.inf (xor s t)
  | Double.fin s m e, Double.fin t m' e' => Double.round (xor s t) (m * m') 1 (e + e')

/-- The operator `/` on `double`. -/
def Double.div : Double → Double → Double
  | Double.nan, _ => Double.nan
  | _, Double.nan => Double.nan
  | Double.inf _, Double.inf _ => Double.nan
  | Double.inf s, Double.fin t _ _ => Double.inf (xor s t)
  | Double.fin s _ _, Double.inf t => Double.fin (xor s t) 0 (-1074)
  | Double.fin s m e, Double.fin t m' e' =>
    if m' = 0 then (if m = 0 then Double.nan else Double.inf (xor s t))
    else if m = 0 then Double.fin (xor s t) 0 (-1074)
    else Double.round (xor s t) m m' (e - e')

/-- The operator `==` on `double`: NaN equals nothing, the two zeros are equal, and finite
values are compared by value. -/
def Double.eq : Double → Double → Bool
  | Double.nan, _ => false
  | _, Double.nan => false
  | Double.inf s, Double.inf t => s == t
  | Double.fin s m e, Double.fin t m' e' =>
    if m = 0 ∨ m' = 0 then (m == 0 && m' == 0)
    else (s == t && decide (m * 2 ^ (e - min e e').toNat = m' * 2 ^ (e' - min e e').toNat))
  | _, _ => false

/-! ## The sensor layer (`load_cell_sensor.c`) -/

/-- The sensor handle, `load_cell_sensor.h`; `hx` is a pointer (`none` is `NULL`), `offset` an
`int32_t`. -/
structure load_cell_sensor_t where
  hx : Option hx711_t
  scale_factor : Double
  offset : Int
  deriving DecidableEq, Repr

/-- The function `load_cell_init`: `s` is the pointer to the (uninitialised) handle; the result
is the return code and the handle afterwards. -/
def load_cell_init (s : Option load_cell_sensor_t) (hx : Option hx711_t) (scale : Double) :
    Int × Option load_cell_sensor_t :=
  match s, hx with
  | some _, some _ => (0, some { hx := hx, scale_factor := scale, offset := 0 })
  | _, _ => (- EINVAL, s)

/-- The function `load_cell_tare`: the return code, the handle afterwards and the bus; `none`
when the readiness wait of the driver runs out of fuel. -/
def load_cell_tare (fuel : Nat) (env : Env) (s : Option load_cell_sensor_t) (samples : Int)
    (bus : Bus) : Option (Int × Option load_cell_sensor_t × Bus) :=
  match s with
  | none => some (- EINVAL, s, bus)
  | some st =>
    match hx711_read_average fuel env st.hx samples (some 0) bus with
    | none => none
    | some (rc, raw, bus1) =>
      if rc ≠ 0 then some (rc, s, bus1)
      else
        let bus2 := pthread_mutex_lock Mutex.load_cell bus1
        let st1 := { st with offset := raw.getD 0 }
        some (0, some st1, pthread_mutex_unlock Mutex.load_cell bus2)

/-- The function `load_cell_calibrate`; `raw - s->offset` is an `int` subtraction. -/
def load_cell_calibrate (fuel : Nat) (env : Env) (s : Option load_cell_sensor_t)
    (known_weight : Double) (samples : Int) (bus : Bus) :
    Option (Int × Option load_cell_sensor_t × Bus) :=
  match s with
  | none => some (- EINVAL, s, bus)
  | some st =>
    if Double.eq known_weight Double.zero then some (- EINVAL, s, bus)
    else
      match hx711_read_average fuel env st.hx samples (some 0) bus with
      | none => none
      | some (rc, raw, bus1) =>
        if rc ≠ 0 then some (rc, s, bus1)
        else
          let bus2 := pthread_mutex_lock Mutex.load_cell bus1
          let scale := Double.div known_weight
            (Double.ofInt (wrapInt 32 (raw.getD 0 - st.offset)))
          let st1 := { st with scale_factor := scale }
          some (0, some st1, pthread_mutex_unlock Mutex.load_cell bus2)

/-- The function `load_cell_read_weight`: the return code, the content of `*out` afterwards and
the bus. -/
def load_cell_read_weight (fuel : Nat) (env : Env) (s : Option load_cell_sensor_t)
    (samples : Int) (out : Option Double) (bus : Bus) : Option (Int × Option Double × Bus) :=
  match s, out with
  | some st, some _ =>
    match hx711_read_average fuel env st.hx samples (some 0) bus with
    | none => none
    | some (rc, raw, bus1) =>
      if rc ≠ 0 then some (rc, out, bus1)
      else
        let bus2 := pthread_mutex_lock Mutex.load_cell bus1
        let val := Double.mul (Double.ofInt (wrapInt 32 (raw.getD 0 - st.offset)))
          st.scale_factor
        some (0, some val, pthread_mutex_unlock Mutex.load_cell bus2)
  | _, _ => some (- EINVAL, out, bus)

/-! ## Specification-side definitions -/

/-- The character a value file shows for a line level. -/
def levelChar (b : Bool) : Char :=
  if b then '1' else '0'

/-- The data line delivers the bits `b 0, b 1, .., b (n-1)` on the next `n` reads. -/
def Delivers (env : Env) (bus : Bus) (n : Nat) (b : Nat → Bool) : Prop :=
  ∀ i, i < n → env.dout (bus.reads + i) = ReadOutcome.byte (levelChar (b i))

/-- The 24 bits `b 0 .. b 23` read as a two's-complement number, `b 0` most significant:
the sum of `b i * 2 ^ (23 - i)`, minus `2 ^ 24` when `b 0` is set. -/
def twosComplement24 (b : Nat → Bool) : Int :=
  ((∑ i in Finset.range 24, (b i).toNat * 2 ^ (23 - i) : Nat) : Int)
    - (if b 0 then 2 ^ 24 else 0)

/-- The bit that one iteration of the data loop shifts in at the k-th read of the value file:
`ch == '1'` when the read succeeds, and the initial `bit = 0` when it fails. -/
def sampledBit (env : Env) (k : Nat) : Bool :=
  match env.dout k with
  | ReadOutcome.byte ch => decide (ch = '1')
  | ReadOutcome.fail _ => false

/-- Most-significant-first value of the first `n` bits of `g`. -/
def msbValue : Nat → (Nat → Bool) → Nat
  | 0, _ => 0
  | n + 1, g => (g 0).toNat * 2 ^ n + msbValue n (fun i => g (i + 1))

/-- The signed value of a completed 24-bit accumulator holding the bits `g 0 .. g 23`. -/
def sample24 (g : Nat → Bool) : Int :=
  (msbValue 24 g : Int) - (if g 0 then 2 ^ 24 else 0)

/-- Bit `i` (counted from the most significant of 24) of the bit pattern `p`. -/
def patternBit (p : Nat) (i : Nat) : Bool :=
  p.testBit (23 - i)

/-- Trailing pulses per gain setting, as the specification lists them. -/
def trailingPulses : hx711_gain_t → Nat
  | hx711_gain_t.HX711_GAIN_128 => 1
  | hx711_gain_t.HX711_GAIN_64 => 3
  | hx711_gain_t.HX711_GAIN_32 => 2

/-- One data pulse: rising edge on the clock line, one read of the data line, falling edge. -/
def dataPulse (dev : hx711_t) : List Event :=
  [Event.write dev.fd_sck true, Event.read dev.fd_dout, Event.write dev.fd_sck false]

/-- One trailing pulse: rising edge then falling edge on the clock line, no read. -/
def gainPulse (dev : hx711_t) : List Event :=
  [Event.write dev.fd_sck true, Event.write dev.fd_sck false]

/-- The calls of one single-sample read: 24 data pulses, then the trailing pulses. -/
def sampleTrace (dev : hx711_t) : List Event :=
  (List.replicate 24 (dataPulse dev)).flatten
    ++ (List.replicate (trailingPulses dev.gain_sel) (gainPulse dev)).flatten

/-- Whether an event is a read of a value file. -/
def Event.isRead : Event → Bool
  | Event.read _ => true
  | _ => false

/-- Whether an event is a write of the given level to a value file. -/
def Event.isWrite (level : Bool) : Event → Bool
  | Event.write _ l => l == level
  | _ => false

/-- The i-th single-sample value read when the sampling loop starts after `r` reads of the
data line: the 24 bits shifted in at reads `r + 24 * i .. r + 24 * i + 23`. -/
def nthSample (env : Env) (r : Nat) (i : Nat) : Int :=
  sample24 (fun j => sampledBit env (r + 24 * i + j))

/-- The calls of one iteration of the sampling loop: one single-sample read, then the 2 ms
settling sleep. -/
def iterationTrace (dev : hx711_t) : List Event :=
  sampleTrace dev ++ [Event.nanosleep 0 2000000]

/-- The k-th read of the data line shows the line high (the character '1'). -/
def ReadsHigh (env : Env) (k : Nat) : Prop :=
  env.dout k = ReadOutcome.byte '1'

/-- The k-th read of the data line succeeds and shows the line low (a character other than
'1'). -/
def ReadsLow (env : Env) (k : Nat) : Prop :=
  ∃ ch : Char, env.dout k = ReadOutcome.byte ch ∧ ch ≠ '1'

/-- Nanoseconds from `start` to `now` as a mathematical integer. -/
def exact_ns (start now : Timespec) : Int :=
  (now.tv_sec - start.tv_sec) * 1000000000 + (now.tv_nsec - start.tv_nsec)

/-- Elapsed nanoseconds seen by poll `j` (counted from 0) of a readiness wait entered on `bus`:
the wait reads the clock once at entry and once in every poll that finds the line high. -/
def elapsedAt (env : Env) (bus : Bus) (j : Nat) : Int :=
  exact_ns (env.clock bus.clocks) (env.clock (bus.clocks + 1 + j))

/-- The elapsed time of poll `j` is representable in the 64-bit `long` the code computes in. -/
def FitsLong (env : Env) (bus : Bus) (j : Nat) : Prop :=
  -2 ^ 63 ≤ elapsedAt env bus j ∧ elapsedAt env bus j < 2 ^ 63

/-- Poll `j` finds the line high with the elapsed time still within the limit. -/
def HighWithin (env : Env) (bus : Bus) (limit : Int) (j : Nat) : Prop :=
  ReadsHigh env (bus.reads + j) ∧ FitsLong env bus j ∧ elapsedAt env bus j ≤ limit

/-- The calls of one poll that finds the line high within the limit: read the data line, read
the clock, sleep 1 ms. -/
def pollTrace (dev : hx711_t) : List Event :=
  [Event.read dev.fd_dout, Event.clock_gettime, Event.nanosleep 0 1000000]

/-- The bus after `k` polls that found the line high within the limit. -/
def afterPolls (dev : hx711_t) (k : Nat) (bus : Bus) : Bus :=
  { reads := bus.reads + k, writes := bus.writes, clocks := bus.clocks + k,
    trace := bus.trace ++ (List.replicate k (pollTrace dev)).flatten }

/-- Taking and releasing the sensor mutex. -/
def sensorLocked (bus : Bus) : Bus :=
  pthread_mutex_unlock Mutex.load_cell (pthread_mutex_lock Mutex.load_cell bus)

/-! ## Concrete inputs used by the witnesses and the counterexamples -/

/-- An environment whose data line always reads high and whose writes succeed. -/
def envHigh : Env :=
  { dout := fun _ => ReadOutcome.byte '1',
    sck := fun _ => WriteOutcome.ok,
    clock := fun k => { tv_sec := 0, tv_nsec := 1000000 * k } }

/-- A driver handle as `main.c` sets it up (GPIO 49 and 115, gain 128). -/
def devMain : hx711_t :=
  { dout_gpio := 49, sck_gpio := 115, gain_sel := hx711_gain_t.HX711_GAIN_128,
    fd_dout := 3, fd_sck := 4 }

/-- The bus before any call. -/
def bus0 : Bus :=
  { reads := 0, writes := 0, clocks := 0, trace := [] }

/-- An environment whose data line reads low except at reads 24 and 47: after the readiness
poll (read 0) the first sample (reads 1..24) is 1 and the second (reads 25..48) is 2. -/
def envOneTwo : Env :=
  { dout := fun k => ReadOutcome.byte (if k = 24 ∨ k = 47 then '1' else '0'),
    sck := fun _ => WriteOutcome.ok,
    clock := fun k => { tv_sec := 0, tv_nsec := 1000000 * k } }

/-- The bus after `hx711_read_average` took the lock and the first poll of the readiness wait
read the data line low. -/
def busReady : Bus :=
  { reads := 1, writes := 0, clocks := 1,
    trace := [Event.lock Mutex.hx711, Event.clock_gettime, Event.read 3] }

/-- An environment in which the readiness poll (read 0) reads low, the read of the first data
bit (read 1) fails with EIO, and every later read shows the line high. -/
def envReadFails : Env :=
  { dout := fun k => if k = 0 then ReadOutcome.byte '0'
                     else if k = 1 then ReadOutcome.fail 5 else ReadOutcome.byte '1',
    sck := fun _ => WriteOutcome.ok,
    clock := fun k => { tv_sec := 0, tv_nsec := 1000000 * k } }

/-- An environment in which the readiness poll reads low, every data bit reads high, and the
first write to the clock line (the rising edge of the first data pulse) fails with EIO. -/
def envWriteFails : Env :=
  { dout := fun k => if k = 0 then ReadOutcome.byte '0' else ReadOutcome.byte '1',
    sck := fun k => if k = 0 then WriteOutcome.fail 5 else WriteOutcome.ok,
    clock := fun k => { tv_sec := 0, tv_nsec := 1000000 * k } }

/-- An environment in which every readiness poll reads low at once and every single-sample
read delivers the value 49 (0x000031): reads come in groups of 25, the poll first and then the
24 data bits, of which bits 18, 19 and 23 are set. -/
def env49 : Env :=
  { dout := fun k => ReadOutcome.byte
      (if k % 25 = 19 ∨ k % 25 = 20 ∨ k % 25 = 24 then '1' else '0'),
    sck := fun _ => WriteOutcome.ok,
    clock := fun k => { tv_sec := 0, tv_nsec := 1000000 * k } }

/-- A sensor handle before `load_cell_init`. -/
def sensorRaw : load_cell_sensor_t :=
  { hx := none, scale_factor := Double.zero, offset := 0 }

/-- The sensor handle after `load_cell_init(&sensor, &hx, 1.0)` as in `main.c`. -/
def sensorInit : Option load_cell_sensor_t :=
  (load_cell_init (some sensorRaw) (some devMain) Double.one).2

/-- The sensor handle after `load_cell_init(&sensor, &hx, 1.0)`, written out. -/
def sensorMain : load_cell_sensor_t :=
  { hx := some devMain, scale_factor := Double.one, offset := 0 }

/-- A sensor handle whose stored offset is 47, so that the raw average 49 gives the delta 2. -/
def sensorOffset47 : load_cell_sensor_t :=
  { hx := some devMain, scale_factor := Double.one, offset := 47 }

/-- The handle `sensorOffset47` after calibrating with weight 1.0 at raw average 49. -/
def sensorCalibrated47 : load_cell_sensor_t :=
  { sensorOffset47 with
    scale_factor := Double.div Double.one (Double.ofInt (49 - sensorOffset47.offset)) }

/-- A sensor handle whose scale factor is +infinity. -/
def sensorInfinite : load_cell_sensor_t :=
  { hx := some devMain, scale_factor := Double.inf false, offset := 0 }

/-- The bus a driver call returned (`bus0` when it ran out of fuel). -/
def busAfter (r : Option (Int × Option Int × Bus)) : Bus :=
  match r with
  | some x => x.2.2
  | none => bus0

/-- The bus after a first one-sample average in `env49`. -/
def busFirst49 : Bus :=
  busAfter (hx711_read_average 1 env49 (some devMain) 1 (some 0) bus0)

/-- The bus after a second one-sample average in `env49`, made once the sensor has updated its
state. -/
def busSecond49 : Bus :=
  busAfter (hx711_read_average 1 env49 (some devMain) 1 (some 0) (sensorLocked busFirst49))

/-- Calibrate with the known weight 1.0 while every raw average is 49 and the offset is 0, then
read the weight: the return codes of the two calls and the weight read. -/
def scenarioCalibrateRead : Option (Int × Int × Option Double) :=
  (load_cell_calibrate 1 env49 sensorInit Double.one 1 bus0).bind (fun c =>
    (load_cell_read_weight 1 env49 c.2.1 1 (some Double.zero) c.2.2).map (fun r =>
      (c.1, r.1, r.2.1)))

/-- Tare, calibrate with the weight 1.0 left off the scale (so the raw average 49 equals the
offset), tare again and read the weight: the four return codes, the scale factor stored by the
calibration and the weight read. -/
def scenarioZeroDelta : Option (Int × Int × Int × Int × Option Double × Option Double) :=
  (load_cell_tare 1 env49 sensorInit 1 bus0).bind (fun t1 =>
    (load_cell_calibrate 1 env49 t1.2.1 Double.one 1 t1.2.2).bind (fun c =>
      (load_cell_tare 1 env49 c.2.1 1 c.2.2).bind (fun t2 =>
        (load_cell_read_weight 1 env49 t2.2.1 1 (some Double.zero) t2.2.2).map (fun r =>
          (t1.1, c.1, t2.1, r.1, c.2.1.map (fun st => st.scale_factor), r.2.1)))))

/-! ## The single-sample read: value (C1) -/

theorem gpio_write_fd_reads (env : Env) (fd : Int) (v : Nat) (bus : Bus) :
    (gpio_write_fd env fd v bus).2.reads = bus.reads := by
  unfold gpio_write_fd
  cases env.sck bus.writes <;> rfl

theorem gpio_read_fd_reads (env : Env) (fd : Int) (v : Nat) (bus : Bus) :
    (gpio_read_fd env fd v bus).2.2.reads = bus.reads + 1 := by
  unfold gpio_read_fd
  cases env.dout bus.reads <;> rfl

theorem gpio_read_fd_bit (env : Env) (fd : Int) (bus : Bus) :
    (gpio_read_fd env fd 0 bus).2.1 = (sampledBit env bus.reads).toNat := by
  unfold gpio_read_fd sampledBit
  cases h : env.dout bus.reads with
  | byte ch => by_cases hc : ch = '1' <;> simp [hc]
  | fail e => simp

theorem sampledBit_of_level (env : Env) (k : Nat) (b : Bool)
    (h : env.dout k = ReadOutcome.byte (levelChar b)) : sampledBit env k = b := by
  unfold sampledBit
  rw [h]
  cases b <;> simp [levelChar]

theorem shift_or_bit (data : Nat) (b : Bool) :
    data <<< 1 ||| (b.toNat &&& 0x1) = 2 * data + b.toNat := by
  have hb : b.toNat &&& 0x1 = b.toNat := by cases b <;> rfl
  have hlt : b.toNat < 2 ^ 1 := by cases b <;> decide
  rw [hb, Nat.shiftLeft_eq, Nat.mul_comm data, Nat.mul_add_lt_is_or hlt, pow_one]

theorem msbValue_lt (n : Nat) : ∀ g : Nat → Bool, msbValue n g < 2 ^ n := by
  induction n with
  | zero => intro g; simp [msbValue]
  | succ n ih =>
    intro g
    have h := ih (fun i => g (i + 1))
    have hb : (g 0).toNat ≤ 1 := by cases g 0 <;> decide
    have : (g 0).toNat * 2 ^ n ≤ 2 ^ n := by nlinarith
    simp only [msbValue, pow_succ]
    omega

theorem msbValue_eq_sum (n : Nat) :
    ∀ g : Nat → Bool,
      msbValue n g = ∑ i in Finset.range n, (g i).toNat * 2 ^ (n - 1 - i) := by
  induction n with
  | zero => intro g; simp [msbValue]
  | succ n ih =>
    intro g
    rw [msbValue, ih, Finset.sum_range_succ']
    simp only [Nat.add_sub_cancel, Nat.sub_zero]
    rw [Nat.add_comm]
    congr 1
    apply Finset.sum_congr rfl
    intro i hi
    have : i < n := Finset.mem_range.mp hi
    have e : n - (i + 1) = n - 1 - i := by omega
    rw [e]

theorem dataLoop_reads (env : Env) (dev : hx711_t) (n : Nat) :
    ∀ data bus, (read_raw_one.dataLoop env dev n data bus).2.reads = bus.reads + n := by
  induction n with
  | zero => intro data bus; rfl
  | succ n ih =>
    intro data bus
    simp only [read_raw_one.dataLoop]
    rw [ih, gpio_write_fd_reads, gpio_read_fd_reads, gpio_write_fd_reads]
    omega

theorem dataLoop_data (env : Env) (dev : hx711_t) (n : Nat) :
    ∀ (data : Nat) (bus : Bus), (data + 1) * 2 ^ n ≤ 2 ^ 32 →
      (read_raw_one.dataLoop env dev n data bus).1
        = data * 2 ^ n + msbValue n (fun i => sampledBit env (bus.reads + i)) := by
  induction n with
  | zero => intro data bus _; simp [read_raw_one.dataLoop, msbValue]
  | succ n ih =>
    intro data bus hlt
    simp only [read_raw_one.dataLoop]
    rw [gpio_read_fd_bit, shift_or_bit, gpio_write_fd_reads]
    generalize hb0 : sampledBit env bus.reads = b0
    have hb : b0.toNat ≤ 1 := by cases b0 <;> decide
    have hpos : 1 ≤ 2 ^ n := Nat.pos_pow_of_pos n (by decide)
    rw [pow_succ] at hlt
    have hmono : (data + 1) * 2 * 1 ≤ (data + 1) * 2 * 2 ^ n := Nat.mul_le_mul_left _ hpos
    have hassoc : (data + 1) * 2 * 2 ^ n = (data + 1) * (2 ^ n * 2) := by ring
    have hsmall : 2 * data + b0.toNat < 2 ^ 32 := by omega
    rw [Nat.mod_eq_of_lt hsmall]
    have hlt1 : (2 * data + b0.toNat + 1) * 2 ^ n ≤ 2 ^ 32 := by
      have : (2 * data + b0.toNat + 1) * 2 ^ n ≤ (data + 1) * 2 * 2 ^ n :=
        Nat.mul_le_mul_right _ (by omega)
      omega
    rw [ih _ _ hlt1, gpio_write_fd_reads, gpio_read_fd_reads, gpio_write_fd_reads]
    simp only [msbValue, pow_succ, Nat.add_zero, hb0]
    have hfun : (fun i => sampledBit env (bus.reads + 1 + i))
        = (fun i => sampledBit env (bus.reads + (i + 1))) := by
      funext i; congr 1; omega
    rw [hfun]
    ring

theorem msbValue_congr (n : Nat) :
    ∀ g h : Nat → Bool, (∀ i, i < n → g i = h i) → msbValue n g = msbValue n h := by
  induction n with
  | zero => intro g h _; rfl
  | succ n ih =>
    intro g h hgh
    simp only [msbValue]
    rw [hgh 0 (Nat.succ_pos n), ih (fun i => g (i + 1)) (fun i => h (i + 1))
      (fun i hi => hgh (i + 1) (Nat.succ_lt_succ hi))]

theorem sample24_eq_twosComplement24 (g : Nat → Bool) : sample24 g = twosComplement24 g := by
  unfold sample24 twosComplement24
  rw [msbValue_eq_sum]

theorem sample24_range (g : Nat → Bool) : -8388608 ≤ sample24 g ∧ sample24 g ≤ 8388607 := by
  unfold sample24
  have h : msbValue 24 g = (g 0).toNat * 2 ^ 23 + msbValue 23 (fun i => g (i + 1)) := rfl
  have hlt := msbValue_lt 23 (fun i => g (i + 1))
  rw [h]
  cases g 0 <;> simp <;> omega

theorem sign_extend_value (d : Nat) (h : d < 2 ^ 24) :
    toInt32 (sign_extend d) = if d < 2 ^ 23 then (d : Int) else (d : Int) - 2 ^ 24 := by
  have hand : d &&& 0x800000 = (d.testBit 23).toNat * 2 ^ 23 := Nat.and_two_pow d 23
  have hnot : not32 0xFFFFFF = 2 ^ 24 * 255 := by decide
  unfold sign_extend
  rw [hand, hnot, Nat.testBit_to_div_mod]
  by_cases hd : d < 2 ^ 23
  · have : d / 2 ^ 23 = 0 := Nat.div_eq_of_lt hd
    simp only [this, hd, if_true]
    simp [toInt32]
    omega
  · have h1 : d / 2 ^ 23 = 1 := by omega
    have hor : d ||| 2 ^ 24 * 255 = 2 ^ 24 * 255 + d := by
      rw [Nat.lor_comm, Nat.mul_add_lt_is_or h]
    simp only [h1, hd, if_false]
    simp only [Nat.one_mod, decide_True, Bool.toNat_true, one_mul, ne_eq, Nat.pow_eq_zero,
      OfNat.ofNat_ne_zero, false_and, not_false_eq_true, if_true, hor]
    unfold toInt32
    have hm : (2 ^ 24 * 255 + d) % 2 ^ 32 = 2 ^ 24 * 255 + d := Nat.mod_eq_of_lt (by omega)
    rw [hm]
    have hge : ¬ (2 ^ 24 * 255 + d < 2 ^ 31) := by omega
    rw [if_neg hge]
    push_cast
    omega

theorem read_raw_one_value (env : Env) (dev : hx711_t) (bus : Bus) :
    (read_raw_one env dev bus).1 = sample24 (fun i => sampledBit env (bus.reads + i)) := by
  unfold read_raw_one
  simp only
  rw [dataLoop_data env dev 24 0 bus (by decide), Nat.zero_mul, Nat.zero_add]
  generalize hg : (fun i => sampledBit env (bus.reads + i)) = g
  have hlt := msbValue_lt 24 g
  rw [sign_extend_value _ hlt]
  unfold sample24
  have h : msbValue 24 g = (g 0).toNat * 2 ^ 23 + msbValue 23 (fun i => g (i + 1)) := rfl
  have hlt23 := msbValue_lt 23 (fun i => g (i + 1))
  rw [h]
  cases g 0 <;> simp
  all_goals omega

theorem twosComplement24_congr (b c : Nat → Bool) (h : ∀ i, i < 24 → b i = c i) :
    twosComplement24 b = twosComplement24 c := by
  rw [← sample24_eq_twosComplement24, ← sample24_eq_twosComplement24]
  unfold sample24
  rw [msbValue_congr 24 b c h, h 0 (by decide)]

/-- C1: when the data line delivers the bits b0..b23 on the 24 data pulses, `read_raw_one`
returns them read as a 24-bit two's-complement number with b0 most significant (the sum of
b_i * 2^(23-i), minus 2^24 when b0 = 1); the result lies in [-8388608, 8388607]; the patterns
0x800000, 0x7FFFFF and 0x000001 give -8388608, 8388607 and 1. -/
theorem C1_read_raw_one_twos_complement (env : Env) (dev : hx711_t) (bus : Bus)
    (b : Nat → Bool) (h : Delivers env bus 24 b) :
    (read_raw_one env dev bus).1 = twosComplement24 b
    ∧ -8388608 ≤ (read_raw_one env dev bus).1 ∧ (read_raw_one env dev bus).1 ≤ 8388607
    ∧ ((∀ i, i < 24 → b i = patternBit 0x800000 i) →
        (read_raw_one env dev bus).1 = -8388608)
    ∧ ((∀ i, i < 24 → b i = patternBit 0x7FFFFF i) → (read_raw_one env dev bus).1 = 8388607)
    ∧ ((∀ i, i < 24 → b i = patternBit 0x000001 i) → (read_raw_one env dev bus).1 = 1) := by
  have hv : (read_raw_one env dev bus).1 = twosComplement24 b := by
    rw [read_raw_one_value, sample24_eq_twosComplement24]
    exact twosComplement24_congr _ _ (fun i hi => sampledBit_of_level env _ (b i) (h i hi))
  have hr := sample24_range b
  rw [sample24_eq_twosComplement24] at hr
  refine ⟨hv, by rw [hv]; exact hr.1, by rw [hv]; exact hr.2, ?_, ?_, ?_⟩
  · intro hb
    rw [hv, twosComplement24_congr b _ hb, ← sample24_eq_twosComplement24]
    decide
  · intro hb
    rw [hv, twosComplement24_congr b _ hb, ← sample24_eq_twosComplement24]
    decide
  · intro hb
    rw [hv, twosComplement24_congr b _ hb, ← sample24_eq_twosComplement24]
    decide

theorem C1_witness :
    Delivers envHigh bus0 24 (fun _ => true)
    ∧ (read_raw_one envHigh devMain bus0).1 = twosComplement24 (fun _ => true) :=
  ⟨fun _ _ => rfl,
   (C1_read_raw_one_twos_complement envHigh devMain bus0 (fun _ => true) (fun _ _ => rfl)).1⟩

/-! ## The single-sample read: pulse train (C3) -/

theorem gpio_write_fd_trace (env : Env) (fd : Int) (v : Nat) (bus : Bus) :
    (gpio_write_fd env fd v bus).2.trace = bus.trace ++ [Event.write fd (v != 0)] := by
  unfold gpio_write_fd
  cases env.sck bus.writes <;> rfl

theorem gpio_read_fd_trace (env : Env) (fd : Int) (v : Nat) (bus : Bus) :
    (gpio_read_fd env fd v bus).2.2.trace = bus.trace ++ [Event.read fd] := by
  unfold gpio_read_fd
  cases env.dout bus.reads <;> rfl

theorem dataLoop_trace (env : Env) (dev : hx711_t) (n : Nat) :
    ∀ data bus, (read_raw_one.dataLoop env dev n data bus).2.trace
      = bus.trace ++ (List.replicate n (dataPulse dev)).flatten := by
  induction n with
  | zero => intro data bus; simp [read_raw_one.dataLoop]
  | succ n ih =>
    intro data bus
    simp only [read_raw_one.dataLoop]
    rw [ih, gpio_write_fd_trace, gpio_read_fd_trace, gpio_write_fd_trace]
    simp [List.replicate_succ, dataPulse]

theorem gainLoop_trace (env : Env) (dev : hx711_t) (n : Nat) :
    ∀ bus, (read_raw_one.gainLoop env dev n bus).trace
      = bus.trace ++ (List.replicate n (gainPulse dev)).flatten := by
  induction n with
  | zero => intro bus; simp [read_raw_one.gainLoop]
  | succ n ih =>
    intro bus
    simp only [read_raw_one.gainLoop]
    rw [ih, gpio_write_fd_trace, gpio_write_fd_trace]
    simp [List.replicate_succ, gainPulse]

theorem gain_pulses_eq (dev : hx711_t) : gain_pulses dev = trailingPulses dev.gain_sel := by
  unfold gain_pulses
  cases dev.gain_sel <;> rfl

theorem read_raw_one_trace (env : Env) (dev : hx711_t) (bus : Bus) :
    (read_raw_one env dev bus).2.trace = bus.trace ++ sampleTrace dev := by
  unfold read_raw_one sampleTrace
  simp only
  rw [gainLoop_trace, dataLoop_trace, gain_pulses_eq, List.append_assoc]

theorem gpio_write_fd_writes (env : Env) (fd : Int) (v : Nat) (bus : Bus) :
    (gpio_write_fd env fd v bus).2.writes = bus.writes + 1 := by
  unfold gpio_write_fd
  cases env.sck bus.writes <;> rfl

theorem gpio_read_fd_writes (env : Env) (fd : Int) (v : Nat) (bus : Bus) :
    (gpio_read_fd env fd v bus).2.2.writes = bus.writes := by
  unfold gpio_read_fd
  cases env.dout bus.reads <;> rfl

theorem dataLoop_writes (env : Env) (dev : hx711_t) (n : Nat) :
    ∀ data bus, (read_raw_one.dataLoop env dev n data bus).2.writes = bus.writes + 2 * n := by
  induction n with
  | zero => intro data bus; rfl
  | succ n ih =>
    intro data bus
    simp only [read_raw_one.dataLoop]
    rw [ih, gpio_write_fd_writes, gpio_read_fd_writes, gpio_write_fd_writes]
    omega

theorem gainLoop_writes (env : Env) (dev : hx711_t) (n : Nat) :
    ∀ bus, (read_raw_one.gainLoop env dev n bus).writes = bus.writes + 2 * n := by
  induction n with
  | zero => intro bus; rfl
  | succ n ih =>
    intro bus
    simp only [read_raw_one.gainLoop]
    rw [ih, gpio_write_fd_writes, gpio_write_fd_writes]
    omega

theorem gainLoop_reads (env : Env) (dev : hx711_t) (n : Nat) :
    ∀ bus, (read_raw_one.gainLoop env dev n bus).reads = bus.reads := by
  induction n with
  | zero => intro bus; rfl
  | succ n ih =>
    intro bus
    simp only [read_raw_one.gainLoop]
    rw [ih, gpio_write_fd_reads, gpio_write_fd_reads]

theorem read_raw_one_reads (env : Env) (dev : hx711_t) (bus : Bus) :
    (read_raw_one env dev bus).2.reads = bus.reads + 24 := by
  unfold read_raw_one
  simp only
  rw [gainLoop_reads, dataLoop_reads]

theorem read_raw_one_writes (env : Env) (dev : hx711_t) (bus : Bus) :
    (read_raw_one env dev bus).2.writes = bus.writes + 2 * (24 + trailingPulses dev.gain_sel) := by
  unfold read_raw_one
  simp only
  rw [gainLoop_writes, dataLoop_writes, gain_pulses_eq]
  omega

/-- C3: one single-sample read emits, after what was already on the bus, exactly 24 data pulses
(clock high, one read of the data line, clock low) followed by g trailing pulses (clock high,
clock low, no read), with g = 1 for Gain128, 3 for Gain64 and 2 for Gain32: 24 + g rising and
24 + g falling edges, and exactly 24 reads of the data line. -/
theorem C3_read_raw_one_pulse_train (env : Env) (dev : hx711_t) (bus : Bus) :
    (read_raw_one env dev bus).2.trace
        = bus.trace ++ (List.replicate 24 (dataPulse dev)).flatten
            ++ (List.replicate (trailingPulses dev.gain_sel) (gainPulse dev)).flatten
    ∧ trailingPulses hx711_gain_t.HX711_GAIN_128 = 1
    ∧ trailingPulses hx711_gain_t.HX711_GAIN_64 = 3
    ∧ trailingPulses hx711_gain_t.HX711_GAIN_32 = 2
    ∧ ((sampleTrace dev).filter (Event.isWrite true)).length = 24 + trailingPulses dev.gain_sel
    ∧ ((sampleTrace dev).filter (Event.isWrite false)).length = 24 + trailingPulses dev.gain_sel
    ∧ ((sampleTrace dev).filter Event.isRead).length = 24
    ∧ (read_raw_one env dev bus).2.reads = bus.reads + 24
    ∧ (read_raw_one env dev bus).2.writes = bus.writes + 2 * (24 + trailingPulses dev.gain_sel)
    := by
  refine ⟨?_, rfl, rfl, rfl, ?_, ?_, ?_, read_raw_one_reads env dev bus,
    read_raw_one_writes env dev bus⟩
  · rw [read_raw_one_trace, sampleTrace, List.append_assoc]
  · cases hg : dev.gain_sel <;>
      simp [sampleTrace, dataPulse, gainPulse, trailingPulses, List.replicate, Event.isWrite, hg]
  · cases hg : dev.gain_sel <;>
      simp [sampleTrace, dataPulse, gainPulse, trailingPulses, List.replicate, Event.isWrite, hg]
  · cases hg : dev.gain_sel <;>
      simp [sampleTrace, dataPulse, gainPulse, trailingPulses, List.replicate, Event.isRead, hg]

/-! ## Averaging (C2, C7, C10) -/

theorem wrapInt64_of_range (x : Int) (h1 : -2 ^ 63 ≤ x) (h2 : x < 2 ^ 63) :
    wrapInt 64 x = x := by
  unfold wrapInt
  norm_num at h1 h2 ⊢
  omega

theorem wrapInt32_of_range (x : Int) (h1 : -2 ^ 31 ≤ x) (h2 : x < 2 ^ 31) :
    wrapInt 32 x = x := by
  unfold wrapInt
  norm_num at h1 h2 ⊢
  omega

theorem nthSample_range (env : Env) (r i : Nat) :
    -8388608 ≤ nthSample env r i ∧ nthSample env r i ≤ 8388607 :=
  sample24_range _

theorem read_raw_one_eq_nthSample (env : Env) (dev : hx711_t) (bus : Bus) :
    (read_raw_one env dev bus).1 = nthSample env bus.reads 0 := by
  rw [read_raw_one_value]
  rfl

theorem nthSample_shift (env : Env) (r i : Nat) :
    nthSample env (r + 24) i = nthSample env r (i + 1) := by
  unfold nthSample
  congr 1
  funext j
  congr 1
  omega

theorem sum_nthSample_range (env : Env) (r n : Nat) :
    -8388608 * (n : Int) ≤ ∑ i in Finset.range n, nthSample env r i
    ∧ ∑ i in Finset.range n, nthSample env r i ≤ 8388607 * (n : Int) := by
  induction n with
  | zero => simp
  | succ n ih =>
    rw [Finset.sum_range_succ]
    have h := nthSample_range env r n
    push_cast
    constructor <;> linarith [ih.1, ih.2, h.1, h.2]

theorem sleep_us_reads (us : Int) (bus : Bus) : (sleep_us us bus).reads = bus.reads := rfl

theorem sleep_us_2000_trace (bus : Bus) :
    (sleep_us 2000 bus).trace = bus.trace ++ [Event.nanosleep 0 2000000] := by
  unfold sleep_us
  rfl

/-- The accumulator of the sampling loop is the exact sum as long as the exact sum cannot leave
the `int64_t` range. -/
theorem sumLoop_exact (env : Env) (dev : hx711_t) (n : Nat) :
    ∀ (sum : Int) (bus : Bus), -2 ^ 63 ≤ sum - 8388608 * (n : Int) →
      sum + 8388608 * (n : Int) < 2 ^ 63 →
      (hx711_read_average.sumLoop env dev n sum bus).1
        = sum + ∑ i in Finset.range n, nthSample env bus.reads i := by
  induction n with
  | zero => intro sum bus _ _; simp [hx711_read_average.sumLoop]
  | succ n ih =>
    intro sum bus h1 h2
    simp only [hx711_read_average.sumLoop]
    rw [read_raw_one_eq_nthSample]
    have hs := nthSample_range env bus.reads 0
    push_cast at h1 h2
    have hw : wrapInt 64 (sum + nthSample env bus.reads 0) = sum + nthSample env bus.reads 0 :=
      wrapInt64_of_range _ (by linarith) (by linarith)
    rw [hw, ih _ _ (by linarith) (by linarith), sleep_us_reads, read_raw_one_reads,
      Finset.sum_range_succ']
    simp only [nthSample_shift]
    ring

theorem sumLoop_trace (env : Env) (dev : hx711_t) (n : Nat) :
    ∀ (sum : Int) (bus : Bus), (hx711_read_average.sumLoop env dev n sum bus).2.trace
      = bus.trace ++ (List.replicate n (iterationTrace dev)).flatten := by
  induction n with
  | zero => intro sum bus; simp [hx711_read_average.sumLoop]
  | succ n ih =>
    intro sum bus
    simp only [hx711_read_average.sumLoop]
    rw [ih, sleep_us_2000_trace, read_raw_one_trace]
    simp [List.replicate_succ, iterationTrace]

theorem sumLoop_reads (env : Env) (dev : hx711_t) (n : Nat) :
    ∀ (sum : Int) (bus : Bus),
      (hx711_read_average.sumLoop env dev n sum bus).2.reads = bus.reads + 24 * n := by
  induction n with
  | zero => intro sum bus; rfl
  | succ n ih =>
    intro sum bus
    simp only [hx711_read_average.sumLoop]
    rw [ih, sleep_us_reads, read_raw_one_reads]
    omega

theorem tdiv_bounds (s n lo hi : Int) (hn : 0 < n) (hlo : lo ≤ 0) (hhi : 0 ≤ hi)
    (h1 : lo * n ≤ s) (h2 : s ≤ hi * n) : lo ≤ Int.tdiv s n ∧ Int.tdiv s n ≤ hi := by
  rcases le_or_lt 0 s with hs | hs
  · rw [Int.tdiv_eq_ediv hs (le_of_lt hn)]
    exact ⟨le_trans hlo (Int.ediv_nonneg hs (le_of_lt hn)), Int.ediv_le_of_le_mul hn h2⟩
  · have hneg : s = -(-s) := by ring
    rw [hneg, Int.neg_tdiv, Int.tdiv_eq_ediv (by linarith) (le_of_lt hn)]
    have hq : (-s) / n ≤ -lo := Int.ediv_le_of_le_mul hn (by linarith)
    have hq0 : 0 ≤ (-s) / n := Int.ediv_nonneg (by linarith) (le_of_lt hn)
    constructor <;> linarith

/-- C2: for every sampleCount N > 0, when the readiness wait succeeds `hx711_read_average`
performs exactly N consecutive single-sample reads (each followed by the settling sleep, then
the unlock), returns success (0) and writes to out the quotient (s1 + ... + sN) / N of the
single-sample values under truncating division: {10,10,10} gives 10, {1,2} gives 1 and a
negative sum is truncated toward zero. -/
theorem C2_read_average_truncated_mean (fuel : Nat) (env : Env) (d : hx711_t) (samples : Int)
    (out0 : Int) (bus bus2 : Bus) (hpos : 0 < samples) (hint : samples < 2 ^ 31)
    (hready : hx711_ready_wait fuel env d 1000 (pthread_mutex_lock Mutex.hx711 bus)
      = some (0, bus2)) :
    ∃ bus3 : Bus,
      hx711_read_average fuel env (some d) samples (some out0) bus
        = some (0, some (Int.tdiv (∑ i in Finset.range samples.toNat,
                                    nthSample env bus2.reads i) samples), bus3)
      ∧ bus3.trace = bus2.trace
          ++ (List.replicate samples.toNat (iterationTrace d)).flatten
          ++ [Event.unlock Mutex.hx711]
      ∧ bus3.reads = bus2.reads + 24 * samples.toNat
      ∧ (∀ (i : Nat) (b : Bus), b.reads = bus2.reads + 24 * i →
          (read_raw_one env d b).1 = nthSample env bus2.reads i)
      ∧ Int.tdiv (10 + 10 + 10) 3 = 10 ∧ Int.tdiv (1 + 2) 2 = 1
      ∧ Int.tdiv (-1 + -2) 2 = -1 := by
  have hN : ((samples.toNat : Nat) : Int) = samples := Int.toNat_of_nonneg (le_of_lt hpos)
  have hexact := sumLoop_exact env d samples.toNat 0 bus2
    (by rw [hN]; norm_num at hint ⊢; linarith) (by rw [hN]; norm_num at hint ⊢; linarith)
  rw [zero_add] at hexact
  have hrange := sum_nthSample_range env bus2.reads samples.toNat
  rw [hN] at hrange
  have hb := tdiv_bounds _ samples (-8388608) 8388607 hpos (by norm_num) (by norm_num)
    hrange.1 hrange.2
  refine ⟨pthread_mutex_unlock Mutex.hx711
      (hx711_read_average.sumLoop env d samples.toNat 0 bus2).2,
    ?_, ?_, ?_, ?_, by decide, by decide, by decide⟩
  · unfold hx711_read_average
    simp only [not_le.mpr hpos, if_false, hready, ne_eq, not_true_eq_false]
    rw [hexact, wrapInt32_of_range _ (by linarith [hb.1]) (by linarith [hb.2])]
  · show (hx711_read_average.sumLoop env d samples.toNat 0 bus2).2.trace
      ++ [Event.unlock Mutex.hx711] = _
    rw [sumLoop_trace]
  · show (hx711_read_average.sumLoop env d samples.toNat 0 bus2).2.reads = _
    rw [sumLoop_reads]
  · intro i b hb
    rw [read_raw_one_value, hb]
    rfl

theorem C2_witness :
    (0 : Int) < 2 ∧ (2 : Int) < 2 ^ 31
    ∧ hx711_ready_wait 1 envOneTwo devMain 1000 (pthread_mutex_lock Mutex.hx711 bus0)
        = some (0, busReady)
    ∧ ∃ bus3 : Bus,
      hx711_read_average 1 envOneTwo (some devMain) 2 (some 0) bus0
        = some (0, some (Int.tdiv (∑ i in Finset.range (2 : Int).toNat,
                                    nthSample envOneTwo busReady.reads i) 2), bus3)
      ∧ bus3.trace = busReady.trace
          ++ (List.replicate (2 : Int).toNat (iterationTrace devMain)).flatten
          ++ [Event.unlock Mutex.hx711]
      ∧ bus3.reads = busReady.reads + 24 * (2 : Int).toNat
      ∧ (∀ (i : Nat) (b : Bus), b.reads = busReady.reads + 24 * i →
          (read_raw_one envOneTwo devMain b).1 = nthSample envOneTwo busReady.reads i)
      ∧ Int.tdiv (10 + 10 + 10) 3 = 10 ∧ Int.tdiv (1 + 2) 2 = 1
      ∧ Int.tdiv (-1 + -2) 2 = -1 :=
  ⟨by decide, by decide, by decide,
   C2_read_average_truncated_mean 1 envOneTwo devMain 2 0 bus0 busReady (by decide) (by decide)
     (by decide)⟩

/-- C7: for every driver (present or NULL), every output cell and every sampleCount <= 0,
`hx711_read_average` returns -EINVAL whatever the fuel, and the bus is returned as it was
(no read of the data line, no write to the clock line, no lock, no clock reading, no sleep, so
no readiness wait) and the output cell keeps its content. -/
theorem C7_read_average_rejects_nonpositive (fuel : Nat) (env : Env) (dev : Option hx711_t)
    (samples : Int) (out : Option Int) (bus : Bus) (h : samples ≤ 0) :
    hx711_read_average fuel env dev samples out bus = some (-22, out, bus)
    ∧ EINVAL = 22 := by
  refine ⟨?_, rfl⟩
  unfold hx711_read_average
  cases dev <;> cases out <;> simp [h, EINVAL]

theorem C7_witness :
    (0 : Int) ≤ 0
    ∧ hx711_read_average 0 envHigh (some devMain) 0 (some 7) bus0 = some (-22, some 7, bus0)
    ∧ EINVAL = 22 :=
  ⟨le_refl 0, C7_read_average_rejects_nonpositive 0 envHigh (some devMain) 0 (some 7) bus0
    (le_refl 0)⟩

/-- C10: for every sampleCount N with 1 <= N <= 2^31 - 1, every single-sample value lies in
[-8388608, 8388607], the 64-bit accumulator of `hx711_read_average` holds the exact sum after
every iteration and every addition stays inside the int64 range (no overflow), the truncated
average lies in [-8388608, 8388607], and narrowing it to 32 bits returns the mathematical
truncated quotient unchanged. -/
theorem C10_accumulation_no_overflow (env : Env) (d : hx711_t) (bus : Bus) (N : Int)
    (h1 : 1 ≤ N) (h2 : N ≤ 2 ^ 31 - 1) :
    (∀ i : Nat, -8388608 ≤ nthSample env bus.reads i ∧ nthSample env bus.reads i ≤ 8388607)
    ∧ (∀ k : Nat, (k : Int) ≤ N →
        (hx711_read_average.sumLoop env d k 0 bus).1
          = ∑ i in Finset.range k, nthSample env bus.reads i
        ∧ -2 ^ 63 ≤ (hx711_read_average.sumLoop env d k 0 bus).1
        ∧ (hx711_read_average.sumLoop env d k 0 bus).1 ≤ 2 ^ 63 - 1)
    ∧ (∀ k : Nat, (k : Int) < N →
        -2 ^ 63 ≤ (hx711_read_average.sumLoop env d k 0 bus).1 + nthSample env bus.reads k
        ∧ (hx711_read_average.sumLoop env d k 0 bus).1 + nthSample env bus.reads k
            ≤ 2 ^ 63 - 1)
    ∧ -8388608 ≤ Int.tdiv (hx711_read_average.sumLoop env d N.toNat 0 bus).1 N
    ∧ Int.tdiv (hx711_read_average.sumLoop env d N.toNat 0 bus).1 N ≤ 8388607
    ∧ wrapInt 32 (Int.tdiv (hx711_read_average.sumLoop env d N.toNat 0 bus).1 N)
        = Int.tdiv (∑ i in Finset.range N.toNat, nthSample env bus.reads i) N := by
  have hpart : ∀ k : Nat, (k : Int) ≤ N →
      (hx711_read_average.sumLoop env d k 0 bus).1
        = ∑ i in Finset.range k, nthSample env bus.reads i := by
    intro k hk
    have := sumLoop_exact env d k 0 bus (by norm_num at h2 ⊢; linarith)
      (by norm_num at h2 ⊢; linarith)
    rw [zero_add] at this
    exact this
  have hN : ((N.toNat : Nat) : Int) = N := Int.toNat_of_nonneg (by linarith)
  have hrange := sum_nthSample_range env bus.reads N.toNat
  rw [hN] at hrange
  have hb := tdiv_bounds _ N (-8388608) 8388607 (by linarith) (by norm_num) (by norm_num)
    hrange.1 hrange.2
  have hfull := hpart N.toNat (le_of_eq hN)
  refine ⟨fun i => nthSample_range env bus.reads i, ?_, ?_, ?_, ?_, ?_⟩
  · intro k hk
    have hr := sum_nthSample_range env bus.reads k
    rw [hpart k hk]
    norm_num at h2 ⊢
    exact ⟨by linarith [hr.1], by linarith [hr.2]⟩
  · intro k hk
    have hr := sum_nthSample_range env bus.reads k
    have hs := nthSample_range env bus.reads k
    rw [hpart k (le_of_lt hk)]
    norm_num at h2 ⊢
    exact ⟨by linarith [hr.1, hs.1], by linarith [hr.2, hs.2]⟩
  · rw [hfull]; exact hb.1
  · rw [hfull]; exact hb.2
  · rw [hfull]
    exact wrapInt32_of_range _ (by linarith [hb.1]) (by linarith [hb.2])

theorem C10_witness :
    (1 : Int) ≤ 2 ∧ (2 : Int) ≤ 2 ^ 31 - 1
    ∧ wrapInt 32 (Int.tdiv (hx711_read_average.sumLoop envOneTwo devMain (2 : Int).toNat 0
          busReady).1 2)
        = Int.tdiv
            (∑ i in Finset.range (2 : Int).toNat, nthSample envOneTwo busReady.reads i) 2 :=
  ⟨by decide, by decide,
   (C10_accumulation_no_overflow envOneTwo devMain busReady 2 (by decide) (by decide)).2.2.2.2.2⟩

/-! ## Readiness wait (C4) -/

theorem elapsed_ns_of_fits (start now : Timespec) (h1 : -2 ^ 63 ≤ exact_ns start now)
    (h2 : exact_ns start now < 2 ^ 63) : elapsed_ns start now = exact_ns start now :=
  wrapInt64_of_range _ h1 h2

theorem limit_ns_of_int (timeout_ms : Int) (h0 : 0 ≤ timeout_ms) (h1 : timeout_ms < 2 ^ 31) :
    wrapInt 64 (timeout_ms * NSEC_PER_MSEC) = timeout_ms * 1000000 := by
  unfold NSEC_PER_MSEC
  apply wrapInt64_of_range
  · norm_num at h1 ⊢; linarith
  · norm_num at h1 ⊢; linarith

theorem afterPolls_zero (dev : hx711_t) (bus : Bus) : afterPolls dev 0 bus = bus := by
  cases bus
  simp [afterPolls]

theorem afterPolls_succ (dev : hx711_t) (k : Nat) (bus : Bus) :
    afterPolls dev k (afterPolls dev 1 bus) = afterPolls dev (k + 1) bus := by
  simp only [afterPolls, List.replicate_succ, List.flatten_cons, List.append_assoc,
    List.replicate_zero, List.flatten_nil, List.append_nil, Bus.mk.injEq, and_true, true_and]
  omega

/-- One poll that finds the line high with the elapsed time within the limit. -/
theorem loop_step_high (env : Env) (dev : hx711_t) (limit : Int) (start : Timespec)
    (fuel val : Nat) (bus : Bus) (hval : val ≠ 0) (hhigh : ReadsHigh env bus.reads)
    (hel : elapsed_ns start (env.clock bus.clocks) ≤ limit) :
    hx711_ready_wait.loop env dev limit start (fuel + 1) val bus
      = hx711_ready_wait.loop env dev limit start fuel 1 (afterPolls dev 1 bus) := by
  unfold ReadsHigh at hhigh
  rw [hx711_ready_wait.loop]
  simp only [hval, if_false, gpio_read_fd, hhigh, clock_gettime, lt_irrefl, if_true,
    one_ne_zero, not_lt.mpr hel, gt_iff_lt]
  congr 1
  simp [sleep_us, afterPolls, pollTrace, Int.tdiv, Int.tmod]

/-- The poll that finds the line low. -/
theorem loop_step_low (env : Env) (dev : hx711_t) (limit : Int) (start : Timespec)
    (fuel val : Nat) (bus : Bus) (hval : val ≠ 0) (hlow : ReadsLow env bus.reads) :
    hx711_ready_wait.loop env dev limit start (fuel + 1) val bus
      = some (0, { bus with reads := bus.reads + 1,
                            trace := bus.trace ++ [Event.read dev.fd_dout] }) := by
  obtain ⟨ch, hch, hne⟩ := hlow
  rw [hx711_ready_wait.loop]
  simp [hval, gpio_read_fd, hch, hne]

/-- The poll that finds the line high with the elapsed time over the limit. -/
theorem loop_step_timeout (env : Env) (dev : hx711_t) (limit : Int) (start : Timespec)
    (fuel val : Nat) (bus : Bus) (hval : val ≠ 0) (hhigh : ReadsHigh env bus.reads)
    (hel : limit < elapsed_ns start (env.clock bus.clocks)) :
    hx711_ready_wait.loop env dev limit start (fuel + 1) val bus
      = some (-110, { bus with reads := bus.reads + 1, clocks := bus.clocks + 1,
                               trace := bus.trace
                                 ++ [Event.read dev.fd_dout, Event.clock_gettime] }) := by
  unfold ReadsHigh at hhigh
  rw [hx711_ready_wait.loop]
  simp [hval, gpio_read_fd, hhigh, clock_gettime, hel, ETIMEDOUT]

theorem loop_run_high (env : Env) (dev : hx711_t) (limit : Int) (start : Timespec) (k : Nat) :
    ∀ (fuel : Nat) (bus : Bus),
      (∀ j, j < k → ReadsHigh env (bus.reads + j)
        ∧ elapsed_ns start (env.clock (bus.clocks + j)) ≤ limit) →
      hx711_ready_wait.loop env dev limit start (fuel + k) 1 bus
        = hx711_ready_wait.loop env dev limit start fuel 1 (afterPolls dev k bus) := by
  induction k with
  | zero => intro fuel bus _; rw [afterPolls_zero]; rfl
  | succ k ih =>
    intro fuel bus h
    have h0 := h 0 (Nat.succ_pos k)
    rw [← Nat.add_assoc, loop_step_high env dev limit start (fuel + k) 1 bus one_ne_zero
      h0.1 h0.2, ih fuel (afterPolls dev 1 bus), afterPolls_succ]
    intro j hj
    have hj1 := h (j + 1) (Nat.succ_lt_succ hj)
    have e1 : (afterPolls dev 1 bus).reads + j = bus.reads + (j + 1) := by
      simp only [afterPolls]; omega
    have e2 : (afterPolls dev 1 bus).clocks + j = bus.clocks + (j + 1) := by
      simp only [afterPolls]; omega
    rw [e1, e2]
    exact hj1

/-- The bus on which the polling loop of a readiness wait starts. -/
theorem ready_wait_unfold (fuel : Nat) (env : Env) (dev : hx711_t) (timeout_ms : Int)
    (bus : Bus) (h0 : 0 ≤ timeout_ms) (h1 : timeout_ms < 2 ^ 31) :
    hx711_ready_wait fuel env dev timeout_ms bus
      = hx711_ready_wait.loop env dev (timeout_ms * 1000000) (env.clock bus.clocks) fuel 1
          { bus with clocks := bus.clocks + 1, trace := bus.trace ++ [Event.clock_gettime] } := by
  unfold hx711_ready_wait
  rw [limit_ns_of_int timeout_ms h0 h1]
  rfl

theorem highWithin_run (env : Env) (dev : hx711_t) (timeout_ms : Int) (bus : Bus)
    (k fuel : Nat) (h0 : 0 ≤ timeout_ms) (h1 : timeout_ms < 2 ^ 31)
    (h : ∀ j, j < k → HighWithin env bus (timeout_ms * 1000000) j) :
    hx711_ready_wait (fuel + k) env dev timeout_ms bus
      = hx711_ready_wait.loop env dev (timeout_ms * 1000000) (env.clock bus.clocks) fuel 1
          (afterPolls dev k { bus with clocks := bus.clocks + 1,
                                       trace := bus.trace ++ [Event.clock_gettime] }) := by
  rw [ready_wait_unfold _ _ _ _ _ h0 h1, loop_run_high]
  intro j hj
  obtain ⟨hh, hf, hl⟩ := h j hj
  refine ⟨hh, ?_⟩
  show elapsed_ns (env.clock bus.clocks) (env.clock (bus.clocks + 1 + j)) ≤ _
  rw [elapsed_ns_of_fits _ _ hf.1 hf.2]
  exact hl

theorem ready_wait_timeout_at (env : Env) (dev : hx711_t) (timeout_ms : Int) (bus : Bus)
    (h0 : 0 ≤ timeout_ms) (h1 : timeout_ms < 2 ^ 31) (k fuel : Nat) (hk : k < fuel)
    (hrun : ∀ j, j < k → HighWithin env bus (timeout_ms * 1000000) j)
    (hhigh : ReadsHigh env (bus.reads + k)) (hfit : FitsLong env bus k)
    (hover : timeout_ms * 1000000 < elapsedAt env bus k) :
    hx711_ready_wait fuel env dev timeout_ms bus
      = some (- ETIMEDOUT,
          { reads := bus.reads + k + 1, writes := bus.writes, clocks := bus.clocks + 1 + k + 1,
            trace := bus.trace ++ [Event.clock_gettime]
              ++ (List.replicate k (pollTrace dev)).flatten
              ++ [Event.read dev.fd_dout, Event.clock_gettime] }) := by
  obtain ⟨f, rfl⟩ : ∃ f, fuel = f + 1 + k := ⟨fuel - 1 - k, by omega⟩
  rw [highWithin_run env dev timeout_ms bus k (f + 1) h0 h1 hrun]
  rw [loop_step_timeout env dev _ _ f 1 _ one_ne_zero hhigh]
  · simp [afterPolls, ETIMEDOUT]
  · show _ < elapsed_ns (env.clock bus.clocks) (env.clock (bus.clocks + 1 + k))
    rw [elapsed_ns_of_fits _ _ hfit.1 hfit.2]
    exact hover

/-- C4: for every timeoutMs >= 0 (an `int`) and every trace of line levels and clock readings
whose elapsed times fit a `long`: if the first k polls read high with the elapsed time within
the limit, then (a) a low reading at poll k makes `hx711_ready_wait` return 0 right there,
after k sleeps and k + 1 line reads (one read and no sleep when the line is low at once), and
(b) a high reading at poll k with elapsed time over timeoutMs makes it return -ETIMEDOUT right
there; (c) if the line stays high and the monotonic clock advances by at least 1 ms across each
sleep, it returns -ETIMEDOUT after at most timeoutMs + 2 polls, so fuel timeoutMs + 2 is
enough. -/
theorem C4_ready_wait (env : Env) (dev : hx711_t) (timeout_ms : Int) (bus : Bus)
    (h0 : 0 ≤ timeout_ms) (h1 : timeout_ms < 2 ^ 31) :
    (∀ k fuel : Nat, k < fuel →
        (∀ j, j < k → HighWithin env bus (timeout_ms * 1000000) j) →
        ReadsLow env (bus.reads + k) →
        hx711_ready_wait fuel env dev timeout_ms bus
          = some (0,
              { reads := bus.reads + k + 1, writes := bus.writes, clocks := bus.clocks + 1 + k,
                trace := bus.trace ++ [Event.clock_gettime]
                  ++ (List.replicate k (pollTrace dev)).flatten
                  ++ [Event.read dev.fd_dout] }))
    ∧ (∀ k fuel : Nat, k < fuel →
        (∀ j, j < k → HighWithin env bus (timeout_ms * 1000000) j) →
        ReadsHigh env (bus.reads + k) → FitsLong env bus k →
        timeout_ms * 1000000 < elapsedAt env bus k →
        hx711_ready_wait fuel env dev timeout_ms bus
          = some (- ETIMEDOUT,
              { reads := bus.reads + k + 1, writes := bus.writes,
                clocks := bus.clocks + 1 + k + 1,
                trace := bus.trace ++ [Event.clock_gettime]
                  ++ (List.replicate k (pollTrace dev)).flatten
                  ++ [Event.read dev.fd_dout, Event.clock_gettime] }))
    ∧ ((∀ j, j ≤ timeout_ms.toNat + 1 →
          ReadsHigh env (bus.reads + j) ∧ FitsLong env bus j) →
        0 ≤ elapsedAt env bus 0 →
        (∀ j, j ≤ timeout_ms.toNat →
          elapsedAt env bus j + 1000000 ≤ elapsedAt env bus (j + 1)) →
        ∀ fuel : Nat, timeout_ms.toNat + 2 ≤ fuel →
        ∃ bus1 : Bus, hx711_ready_wait fuel env dev timeout_ms bus = some (- ETIMEDOUT, bus1)
          ∧ bus1.reads ≤ bus.reads + (timeout_ms.toNat + 2)) := by
  refine ⟨?_, ready_wait_timeout_at env dev timeout_ms bus h0 h1, ?_⟩
  · intro k fuel hk hrun hlow
    obtain ⟨f, rfl⟩ : ∃ f, fuel = f + 1 + k := ⟨fuel - 1 - k, by omega⟩
    rw [highWithin_run env dev timeout_ms bus k (f + 1) h0 h1 hrun]
    rw [loop_step_low env dev _ _ f 1 _ one_ne_zero hlow]
    simp [afterPolls]
  · intro hall hstart hadv fuel hfuel
    have hT : ((timeout_ms.toNat : Nat) : Int) = timeout_ms := Int.toNat_of_nonneg h0
    have hgrow : ∀ j, j ≤ timeout_ms.toNat + 1 →
        (j : Int) * 1000000 ≤ elapsedAt env bus j := by
      intro j
      induction j with
      | zero => intro _; simpa using hstart
      | succ j ih =>
        intro hj
        have := hadv j (by omega)
        have := ih (by omega)
        push_cast
        linarith
    have hex : ∃ k, k ≤ timeout_ms.toNat + 1
        ∧ timeout_ms * 1000000 < elapsedAt env bus k := by
      refine ⟨timeout_ms.toNat + 1, le_refl _, ?_⟩
      have := hgrow (timeout_ms.toNat + 1) (le_refl _)
      push_cast at this
      rw [hT] at this
      linarith
    classical
    let k := Nat.find hex
    have hk : k ≤ timeout_ms.toNat + 1 ∧ timeout_ms * 1000000 < elapsedAt env bus k :=
      Nat.find_spec hex
    have hmin : ∀ j, j < k → HighWithin env bus (timeout_ms * 1000000) j := by
      intro j hj
      have hnot := Nat.find_min hex hj
      have hjle : j ≤ timeout_ms.toNat + 1 := by omega
      refine ⟨(hall j hjle).1, (hall j hjle).2, ?_⟩
      by_contra hc
      exact hnot ⟨hjle, not_le.mp hc⟩
    refine ⟨_, ready_wait_timeout_at env dev timeout_ms bus h0 h1 k fuel (by omega) hmin
      (hall k hk.1).1 (hall k hk.1).2 hk.2, ?_⟩
    show bus.reads + k + 1 ≤ _
    omega

theorem envHigh_elapsedAt (j : Nat) :
    elapsedAt envHigh bus0 j = 1000000 * ((1 + j : Nat) : Int) := by
  unfold elapsedAt exact_ns envHigh bus0
  simp

theorem C4_witness :
    (0 : Int) ≤ 2 ∧ (2 : Int) < 2 ^ 31
    ∧ ∃ bus1 : Bus, hx711_ready_wait 4 envHigh devMain 2 bus0 = some (- ETIMEDOUT, bus1)
        ∧ bus1.reads ≤ bus0.reads + ((2 : Int).toNat + 2) :=
  ⟨by decide, by decide,
   (C4_ready_wait envHigh devMain 2 bus0 (by decide) (by decide)).2.2
     (fun j hj => ⟨rfl, by
        unfold FitsLong
        rw [envHigh_elapsedAt]
        have : j ≤ 3 := hj
        constructor <;> push_cast <;> omega⟩)
     (by rw [envHigh_elapsedAt]; decide)
     (fun j _ => by rw [envHigh_elapsedAt, envHigh_elapsedAt]; push_cast; omega)
     4 (by decide)⟩

/-! ## Errors while sampling (C9) -/

/-- C9 (the code at the failing inputs): with one sample requested, a failed read of the first
data bit, or a failed write of the first rising clock edge, still makes `hx711_read_average`
return 0 (success) and write an averaged value (8388607, respectively -1) instead of
returning an error. -/
theorem C9_sampling_errors_swallowed :
    envReadFails.dout 1 = ReadOutcome.fail 5
    ∧ (hx711_read_average 1 envReadFails (some devMain) 1 (some 0) bus0).map
        (fun r => (r.1, r.2.1)) = some (0, some 8388607)
    ∧ envWriteFails.sck 0 = WriteOutcome.fail 5
    ∧ (hx711_read_average 1 envWriteFails (some devMain) 1 (some 0) bus0).map
        (fun r => (r.1, r.2.1)) = some (0, some (-1)) := by
  refine ⟨rfl, ?_, rfl, ?_⟩ <;> decide

/-! ## The sensor layer: rejected calibration (C8), tare then read (C6) -/

/-- C8: for every sensor handle (or NULL), every sample count and every bus, with fuel to
spare or none, `load_cell_calibrate` with a known weight that compares equal to 0.0 (+0.0 or
-0.0) returns -EINVAL before any driver call: the handle (scale factor and offset) and the bus
are returned unchanged. -/
theorem C8_calibrate_rejects_zero_weight (fuel : Nat) (env : Env)
    (s : Option load_cell_sensor_t) (known_weight : Double) (samples : Int) (bus : Bus)
    (h : Double.eq known_weight Double.zero = true) :
    load_cell_calibrate fuel env s known_weight samples bus = some (-22, s, bus)
    ∧ EINVAL = 22 := by
  refine ⟨?_, rfl⟩
  unfold load_cell_calibrate
  cases s with
  | none => simp [EINVAL]
  | some st => simp [h, EINVAL]

theorem C8_witness :
    Double.eq Double.zero Double.zero = true
    ∧ load_cell_calibrate 0 env49 sensorInit Double.zero 10 bus0 = some (-22, sensorInit, bus0)
    ∧ EINVAL = 22 :=
  ⟨by decide, C8_calibrate_rejects_zero_weight 0 env49 sensorInit Double.zero 10 bus0
    (by decide)⟩

theorem wrapInt32_zero : wrapInt 32 0 = 0 := by decide

theorem ofInt_zero : Double.ofInt 0 = Double.fin false 0 (-1074) := by decide

theorem mul_zero_fin (sgn : Bool) (m : Nat) (e : Int) :
    Double.mul (Double.fin false 0 (-1074)) (Double.fin sgn m e) = Double.fin sgn 0 (-1074) := by
  simp [Double.mul, Double.round]

/-- C6 (the claim at a counterexample): with the scale factor +infinity, tare at the raw
average 49 succeeds and stores the offset 49, and the following read at the same raw average 49
succeeds and yields NaN, which does not compare equal to 0.0.  The state is reached through the
public calls alone: init, tare, calibrate with weight 1.0 at zero delta (which succeeds and
stores +infinity), tare, read all return 0 and the weight read is NaN. -/
theorem C6_counterexample :
    hx711_read_average 1 env49 sensorInfinite.hx 1 (some 0) bus0
      = some (0, some 49, busFirst49)
    ∧ hx711_read_average 1 env49 sensorInfinite.hx 1 (some 0) (sensorLocked busFirst49)
      = some (0, some 49, busSecond49)
    ∧ load_cell_tare 1 env49 (some sensorInfinite) 1 bus0
      = some (0, some { sensorInfinite with offset := 49 }, sensorLocked busFirst49)
    ∧ load_cell_read_weight 1 env49 (some { sensorInfinite with offset := 49 }) 1
        (some Double.zero) (sensorLocked busFirst49)
      = some (0, some Double.nan, sensorLocked busSecond49)
    ∧ Double.eq Double.nan Double.zero = false
    ∧ scenarioZeroDelta
      = some (0, 0, 0, 0, some (Double.inf false), some Double.nan) := by
  refine ⟨rfl, rfl, rfl, rfl, by decide, rfl⟩

/-- C6 (amended): for every sensor state whose scale factor is finite (any sign, any prior
offset) and every raw average R: `load_cell_tare` with driver average R succeeds, stores R as
the offset and keeps the scale factor, and a following `load_cell_read_weight` whose driver
average is again R succeeds and yields a zero (+0.0, or -0.0 for a negative scale factor),
which compares equal to 0.0. -/
theorem C6_tare_then_read_zero (fuel fuel1 : Nat) (env : Env) (st : load_cell_sensor_t)
    (samples samples1 R : Int) (out0 : Double) (bus bus1 bus2 : Bus)
    (sgn : Bool) (m : Nat) (e : Int) (hscale : st.scale_factor = Double.fin sgn m e)
    (htare : hx711_read_average fuel env st.hx samples (some 0) bus = some (0, some R, bus1))
    (hread : hx711_read_average fuel1 env st.hx samples1 (some 0) (sensorLocked bus1)
      = some (0, some R, bus2)) :
    load_cell_tare fuel env (some st) samples bus
      = some (0, some { st with offset := R }, sensorLocked bus1)
    ∧ load_cell_read_weight fuel1 env (some { st with offset := R }) samples1 (some out0)
        (sensorLocked bus1)
      = some (0, some (Double.fin sgn 0 (-1074)), sensorLocked bus2)
    ∧ Double.eq (Double.fin sgn 0 (-1074)) Double.zero = true := by
  refine ⟨?_, ?_, ?_⟩
  · unfold load_cell_tare
    simp [htare, sensorLocked]
  · unfold load_cell_read_weight
    simp only [sensorLocked] at hread ⊢
    simp only [hread, hscale]
    simp [wrapInt32_zero, ofInt_zero, mul_zero_fin]
  · simp [Double.eq, Double.zero]

/-! ## Rounding lemmas and calibrate then read (C5) -/

theorem bitLength_go_spec (fuel : Nat) :
    ∀ n, 0 < n → n ≤ fuel →
      2 ^ (bitLength.go fuel n - 1) ≤ n ∧ n < 2 ^ bitLength.go fuel n
        ∧ 0 < bitLength.go fuel n := by
  induction fuel with
  | zero => intro n h0 h1; omega
  | succ f ih =>
    intro n h0 h1
    have hne : n ≠ 0 := by omega
    simp only [bitLength.go, hne, if_false]
    rcases Nat.eq_zero_or_pos (n / 2) with hz | hp
    · have h1n : n = 1 := by omega
      have hgo : bitLength.go f (n / 2) = 0 := by
        rw [hz]; cases f <;> simp [bitLength.go]
      rw [hgo, h1n]
      decide
    · obtain ⟨ha, hb, hc⟩ := ih (n / 2) hp (by omega)
      refine ⟨?_, ?_, by omega⟩
      · have e : bitLength.go f (n / 2) + 1 - 1 = (bitLength.go f (n / 2) - 1) + 1 := by omega
        rw [e, pow_succ]
        omega
      · rw [pow_succ]
        omega

theorem bitLength_spec (n : Nat) (h : 0 < n) :
    2 ^ (bitLength n - 1) ≤ n ∧ n < 2 ^ bitLength n ∧ 0 < bitLength n :=
  bitLength_go_spec n n h (le_refl n)

theorem pow_two_lt_of_le_of_lt {a b v : Nat} (h1 : 2 ^ a ≤ v) (h2 : v < 2 ^ b) : a < b :=
  (Nat.pow_lt_pow_iff_right (by decide : 1 < 2)).mp (lt_of_le_of_lt h1 h2)

theorem bitLength_one : bitLength 1 = 1 := by decide

/-- With denominator 1 the first guess of the ulp exponent is always one too small. -/
theorem ulpExponent_one (n : Nat) (x : Int) (hn : 0 < n) :
    ulpExponent n 1 x = max ((bitLength n : Int) + x - 53) (-1074) := by
  obtain ⟨hlo, hhi, hpos⟩ := bitLength_spec n hn
  unfold ulpExponent
  simp only [bitLength_one, Nat.cast_one]
  have hk : x - ((bitLength n : Int) - 1 + x - 53) = 54 - (bitLength n : Int) := by ring
  rw [hk]
  have hge : ¬ ((scaleFraction n 1 (54 - (bitLength n : Int))).1
      / (scaleFraction n 1 (54 - (bitLength n : Int))).2 < 2 ^ 53) := by
    unfold scaleFraction
    by_cases hL : (0 : Int) ≤ 54 - (bitLength n : Int)
    · simp only [hL, if_true, Nat.div_one, not_lt]
      have hLn : bitLength n ≤ 54 := by omega
      have ht : (54 - (bitLength n : Int)).toNat = 54 - bitLength n := by omega
      rw [ht]
      calc 2 ^ 53 = 2 ^ (bitLength n - 1) * 2 ^ (54 - bitLength n) := by
            rw [← pow_add]; congr 1; omega
        _ ≤ n * 2 ^ (54 - bitLength n) := Nat.mul_le_mul_right _ hlo
    · simp only [hL, if_false, one_mul, not_lt]
      have ht : (-(54 - (bitLength n : Int))).toNat = bitLength n - 54 := by omega
      rw [ht, Nat.le_div_iff_mul_le (Nat.pos_pow_of_pos _ (by decide))]
      calc 2 ^ 53 * 2 ^ (bitLength n - 54) = 2 ^ (bitLength n - 1) := by
            rw [← pow_add]; congr 1; omega
        _ ≤ n := hlo
  rw [if_neg hge]
  congr 1
  ring

theorem roundHalfEven_exact (m D : Nat) (hD : 0 < D) : roundHalfEven (m * D) D = m := by
  unfold roundHalfEven
  simp [Nat.mul_div_cancel _ hD, Nat.mul_mod_left, hD]

/-- Rounding an exactly representable value `n * 2^x = m * 2^e`, where `x = e + a`. -/
theorem round_exact_A (neg : Bool) (n m a : Nat) (x e : Int) (hn : 0 < n)
    (hc : (Double.fin neg m e).IsBinary64) (hx : x = e + a) (h : n * 2 ^ a = m) :
    Double.round neg n 1 x = Double.fin neg m e := by
  obtain ⟨hlo, hhi, hpos⟩ := bitLength_spec n hn
  obtain ⟨hm53, he1, he2, hnorm⟩ := hc
  have hpa : 0 < 2 ^ a := Nat.pos_pow_of_pos a (by decide)
  have hmlo : 2 ^ (bitLength n - 1 + a) ≤ m := by
    rw [pow_add, ← h]; exact Nat.mul_le_mul_right _ hlo
  have hmhi : m < 2 ^ (bitLength n + a) := by
    rw [pow_add, ← h]; exact Nat.mul_lt_mul_of_pos_right hhi hpa
  have hE : ulpExponent n 1 x = e := by
    rw [ulpExponent_one n x hn]
    have h1 : bitLength n - 1 + a < 53 := pow_two_lt_of_le_of_lt hmlo hm53
    rcases hnorm with hn52 | hsub
    · have h2 : 52 < bitLength n + a := pow_two_lt_of_le_of_lt hn52 hmhi
      have : (bitLength n : Int) + x - 53 = e := by omega
      rw [this]; exact max_eq_left he1
    · have : (bitLength n : Int) + x - 53 ≤ -1074 := by omega
      rw [hsub]; exact max_eq_right this
  unfold Double.round
  have hne : n ≠ 0 := by omega
  simp only [hne, if_false, hE]
  have hk : x - e = (a : Int) := by omega
  have hf : scaleFraction n 1 (x - e) = (m, 1) := by
    unfold scaleFraction
    rw [hk]
    simp [h]
  have hr : roundHalfEven m 1 = m := by
    have := roundHalfEven_exact m 1 (by decide)
    rwa [Nat.mul_one] at this
  rw [hf]
  simp only [hr]
  have hm' : m ≠ 2 ^ 53 := by omega
  simp only [hm', if_false]
  have : ¬ (971 < e) := by omega
  simp [this]

/-- Rounding an exactly representable value `n * 2^x = m * 2^e`, where `e = x + b`. -/
theorem round_exact_B (neg : Bool) (n m b : Nat) (x e : Int) (hn : 0 < n)
    (hc : (Double.fin neg m e).IsBinary64) (he : e = x + b) (hb : 0 < b) (h : n = m * 2 ^ b) :
    Double.round neg n 1 x = Double.fin neg m e := by
  obtain ⟨hlo, hhi, hpos⟩ := bitLength_spec n hn
  obtain ⟨hm53, he1, he2, hnorm⟩ := hc
  have hpb : 0 < 2 ^ b := Nat.pos_pow_of_pos b (by decide)
  have hm0 : 0 < m := by
    rcases Nat.eq_zero_or_pos m with hz | hp
    · rw [hz, Nat.zero_mul] at h; omega
    · exact hp
  have hE : ulpExponent n 1 x = e := by
    rw [ulpExponent_one n x hn]
    have hnhi : n < 2 ^ (53 + b) := by
      rw [pow_add, h]; exact Nat.mul_lt_mul_of_pos_right hm53 hpb
    have h1 : bitLength n - 1 < 53 + b := pow_two_lt_of_le_of_lt hlo hnhi
    rcases hnorm with hn52 | hsub
    · have hnlo : 2 ^ (52 + b) ≤ n := by
        rw [pow_add, h]; exact Nat.mul_le_mul_right _ hn52
      have h2 : 52 + b < bitLength n := pow_two_lt_of_le_of_lt hnlo hhi
      have : (bitLength n : Int) + x - 53 = e := by omega
      rw [this]; exact max_eq_left he1
    · have : (bitLength n : Int) + x - 53 ≤ -1074 := by omega
      rw [hsub]; exact max_eq_right this
  unfold Double.round
  have hne : n ≠ 0 := by omega
  simp only [hne, if_false, hE]
  have hf : scaleFraction n 1 (x - e) = (m * 2 ^ b, 2 ^ b) := by
    unfold scaleFraction
    have hneg : ¬ ((0 : Int) ≤ x - e) := by omega
    have ht : (-(x - e)).toNat = b := by omega
    simp only [hneg, if_false, ht, one_mul, h]
  rw [hf]
  simp only [roundHalfEven_exact m (2 ^ b) hpb]
  have hm' : m ≠ 2 ^ 53 := by omega
  simp only [hm', if_false]
  have : ¬ (971 < e) := by omega
  simp [this]

theorem round_cases (neg : Bool) (n d : Nat) (x : Int) :
    (∃ m e, Double.round neg n d x = Double.fin neg m e)
      ∨ Double.round neg n d x = Double.inf neg := by
  unfold Double.round
  by_cases hn : n = 0
  · left; exact ⟨0, -1074, by simp [hn]⟩
  · simp only [hn, if_false]
    split_ifs
    · right; rfl
    · left; exact ⟨_, _, rfl⟩
    · right; rfl
    · left; exact ⟨_, _, rfl⟩

theorem round_sign (neg s : Bool) (n d m : Nat) (x e : Int)
    (h : Double.round neg n d x = Double.fin s m e) : s = neg := by
  rcases round_cases neg n d x with ⟨m1, e1, h1⟩ | h1
  · rw [h1] at h; injection h with hs _ _; exact hs.symm
  · rw [h1] at h; cases h

/-- The conversion of a nonzero integer below 2^53 in magnitude is exact: the significand is
the magnitude shifted up to 53 bits. -/
theorem ofInt_exact (z : Int) (hz : z ≠ 0) (hlt : z.natAbs < 2 ^ 53) :
    Double.ofInt z = Double.fin (decide (z < 0))
      (z.natAbs * 2 ^ (53 - bitLength z.natAbs)) ((bitLength z.natAbs : Int) - 53) := by
  have hn : 0 < z.natAbs := Int.natAbs_pos.mpr hz
  obtain ⟨hlo, hhi, hpos⟩ := bitLength_spec z.natAbs hn
  have hL : bitLength z.natAbs - 1 < 53 := pow_two_lt_of_le_of_lt hlo hlt
  unfold Double.ofInt
  apply round_exact_A _ _ _ (53 - bitLength z.natAbs) _ _ hn
  · refine ⟨?_, by omega, by omega, Or.inl ?_⟩
    · calc z.natAbs * 2 ^ (53 - bitLength z.natAbs)
          < 2 ^ bitLength z.natAbs * 2 ^ (53 - bitLength z.natAbs) :=
            Nat.mul_lt_mul_of_pos_right hhi (Nat.pos_pow_of_pos _ (by decide))
        _ = 2 ^ 53 := by rw [← pow_add]; congr 1; omega
    · calc 2 ^ 52 = 2 ^ (bitLength z.natAbs - 1) * 2 ^ (53 - bitLength z.natAbs) := by
            rw [← pow_add]; congr 1; omega
        _ ≤ z.natAbs * 2 ^ (53 - bitLength z.natAbs) := Nat.mul_le_mul_right _ hlo
  · omega
  · rfl

/-- An equation `n * 2^x = m * 2^e` between rationals, read as an equation between natural
numbers. -/
theorem rat_pow_eq_cases (n m : Nat) (x e : Int)
    (h : (n : ℚ) * (2 : ℚ) ^ x = (m : ℚ) * (2 : ℚ) ^ e) :
    (e ≤ x → n * 2 ^ (x - e).toNat = m) ∧ (x < e → n = m * 2 ^ (e - x).toNat) := by
  have h2 : (2 : ℚ) ≠ 0 := by norm_num
  constructor
  · intro hle
    have hx : x = e + ((x - e).toNat : Int) := by omega
    rw [hx, zpow_add₀ h2, zpow_natCast] at h
    have hpos : (2 : ℚ) ^ e ≠ 0 := zpow_ne_zero e h2
    have h3 : (n : ℚ) * 2 ^ (x - e).toNat = (m : ℚ) := by
      have : ((n : ℚ) * 2 ^ (x - e).toNat) * (2 : ℚ) ^ e = (m : ℚ) * (2 : ℚ) ^ e := by
        rw [← h]; ring
      exact mul_right_cancel₀ hpos this
    exact_mod_cast h3
  · intro hlt
    have he : e = x + ((e - x).toNat : Int) := by omega
    rw [he, zpow_add₀ h2, zpow_natCast] at h
    have hpos : (2 : ℚ) ^ x ≠ 0 := zpow_ne_zero x h2
    have h3 : (n : ℚ) = (m : ℚ) * 2 ^ (e - x).toNat := by
      have : (n : ℚ) * (2 : ℚ) ^ x = ((m : ℚ) * 2 ^ (e - x).toNat) * (2 : ℚ) ^ x := by
        rw [h]; ring
      exact mul_right_cancel₀ hpos this
    exact_mod_cast h3

/-- Rounding an exactly representable value, stated with rationals. -/
theorem round_exact (neg : Bool) (n m : Nat) (x e : Int) (hn : 0 < n)
    (hc : (Double.fin neg m e).IsBinary64)
    (h : (n : ℚ) * (2 : ℚ) ^ x = (m : ℚ) * (2 : ℚ) ^ e) :
    Double.round neg n 1 x = Double.fin neg m e := by
  obtain ⟨hA, hB⟩ := rat_pow_eq_cases n m x e h
  rcases le_or_lt e x with hle | hlt
  · exact round_exact_A neg n m (x - e).toNat x e hn hc (by omega) (hA hle)
  · exact round_exact_B neg n m (e - x).toNat x e hn hc (by omega) (by omega) (hB hlt)

theorem abs_toRat_fin (s : Bool) (m : Nat) (e : Int) :
    |(Double.fin s m e).toRat| = (m : ℚ) * (2 : ℚ) ^ e := by
  have hp : (0 : ℚ) ≤ (m : ℚ) * (2 : ℚ) ^ e := by positivity
  unfold Double.toRat
  cases s
  · simp only [Bool.false_eq_true, if_false, one_mul]
    exact abs_of_nonneg hp
  · simp only [if_true, neg_mul, one_mul, abs_neg]
    exact abs_of_nonneg hp

/-- If the stored quotient `q = W / D` is exact, so that `D * q = W` as rationals, then the
product `D * q` in `double` arithmetic is exactly `W`. -/
theorem mul_div_exact (D : Int) (hD : D ≠ 0) (hDlt : D.natAbs < 2 ^ 53)
    (sW : Bool) (mW : Nat) (eW : Int) (hc : (Double.fin sW mW eW).IsBinary64) (hm : mW ≠ 0)
    (sq : Bool) (mq : Nat) (eq : Int)
    (hq : Double.div (Double.fin sW mW eW) (Double.ofInt D) = Double.fin sq mq eq)
    (hex : (D : ℚ) * (Double.fin sq mq eq).toRat = (Double.fin sW mW eW).toRat) :
    Double.mul (Double.ofInt D) (Double.fin sq mq eq) = Double.fin sW mW eW := by
  have hn : 0 < D.natAbs := Int.natAbs_pos.mpr hD
  obtain ⟨hlo, hhi, hpos⟩ := bitLength_spec D.natAbs hn
  have hL : bitLength D.natAbs - 1 < 53 := pow_two_lt_of_le_of_lt hlo hDlt
  have hp2 : 0 < 2 ^ (53 - bitLength D.natAbs) := Nat.pos_pow_of_pos _ (by decide)
  have hmD : D.natAbs * 2 ^ (53 - bitLength D.natAbs) ≠ 0 := by
    have := Nat.mul_pos hn hp2
    omega
  rw [ofInt_exact D hD hDlt] at hq ⊢
  -- the sign of the stored quotient
  have hsq : sq = xor sW (decide (D < 0)) := by
    simp only [Double.div, hmD, hm, if_false] at hq
    exact round_sign _ _ _ _ _ _ _ hq
  -- magnitudes
  have habs : |(D : ℚ)| * ((mq : ℚ) * (2 : ℚ) ^ eq) = (mW : ℚ) * (2 : ℚ) ^ eW := by
    have := congrArg abs hex
    rwa [abs_mul, abs_toRat_fin, abs_toRat_fin] at this
  have hDabs : |(D : ℚ)| = (D.natAbs : ℚ) := by
    rw [Nat.cast_natAbs, Int.cast_abs]
  have h2 : (2 : ℚ) ≠ 0 := by norm_num
  have hmq : 0 < mq := by
    rcases Nat.eq_zero_or_pos mq with hz | hp
    · rw [hz] at habs
      have hW : (0 : ℚ) < (mW : ℚ) * (2 : ℚ) ^ eW := by
        have : (0 : ℚ) < (mW : ℚ) := by exact_mod_cast Nat.pos_of_ne_zero hm
        positivity
      simp at habs
      rcases habs with h0 | h0
      · exact absurd h0 hm
      · exact absurd h0 (zpow_ne_zero eW h2)
    · exact hp
  have hval : ((D.natAbs * 2 ^ (53 - bitLength D.natAbs) * mq : Nat) : ℚ)
      * (2 : ℚ) ^ ((bitLength D.natAbs : Int) - 53 + eq) = (mW : ℚ) * (2 : ℚ) ^ eW := by
    rw [← habs, hDabs, zpow_add₀ h2]
    have he : ((bitLength D.natAbs : Int) - 53) = -((53 - bitLength D.natAbs : Nat) : Int) := by
      omega
    rw [he, zpow_neg, zpow_natCast]
    have hne : ((2 : ℚ) ^ (53 - bitLength D.natAbs)) ≠ 0 := pow_ne_zero _ h2
    push_cast
    field_simp
    ring
  have hsign : xor (decide (D < 0)) sq = sW := by
    rw [hsq]; cases sW <;> cases (decide (D < 0)) <;> rfl
  simp only [Double.mul, hsign]
  exact round_exact sW _ mW _ eW (Nat.mul_pos (Nat.mul_pos hn hp2) hmq) hc hval

theorem toRat_ofInt (z : Int) (hlt : z.natAbs < 2 ^ 53) : (Double.ofInt z).toRat = (z : ℚ) := by
  by_cases hz : z = 0
  · rw [hz, ofInt_zero]; simp [Double.toRat]
  · have hn : 0 < z.natAbs := Int.natAbs_pos.mpr hz
    obtain ⟨hlo, hhi, hpos⟩ := bitLength_spec z.natAbs hn
    have hL : bitLength z.natAbs - 1 < 53 := pow_two_lt_of_le_of_lt hlo hlt
    have h2 : (2 : ℚ) ≠ 0 := by norm_num
    have he : ((bitLength z.natAbs : Int) - 53) = -((53 - bitLength z.natAbs : Nat) : Int) := by
      omega
    have hne : ((2 : ℚ) ^ (53 - bitLength z.natAbs)) ≠ 0 := pow_ne_zero _ h2
    rw [ofInt_exact z hz hlt]
    simp only [Double.toRat, he, zpow_neg, zpow_natCast]
    push_cast
    rw [Nat.cast_natAbs, Int.cast_abs]
    rcases lt_or_gt_of_ne hz with hneg | hpos'
    · have : (z : ℚ) < 0 := by exact_mod_cast hneg
      simp only [hneg, decide_True, if_true, abs_of_neg this]
      field_simp
    · have : (0 : ℚ) < (z : ℚ) := by exact_mod_cast hpos'
      have hnl : ¬ z < 0 := by omega
      simp only [hnl, decide_False, Bool.false_eq_true, if_false, abs_of_pos this]
      field_simp

theorem roundHalfEven_error (N D : Nat) (hD : 0 < D) :
    |((roundHalfEven N D : Nat) : ℚ) - (N : ℚ) / (D : ℚ)| ≤ 1 / 2 := by
  have hDq : (0 : ℚ) < (D : ℚ) := by exact_mod_cast hD
  have hN : (N : ℚ) = (D : ℚ) * ((N / D : Nat) : ℚ) + ((N % D : Nat) : ℚ) := by
    exact_mod_cast (Nat.div_add_mod N D).symm
  have hr : ((N % D : Nat) : ℚ) < (D : ℚ) := by exact_mod_cast Nat.mod_lt N hD
  have hr0 : (0 : ℚ) ≤ ((N % D : Nat) : ℚ) := by positivity
  have key : ∀ M : ℚ, |M * (D : ℚ) - (N : ℚ)| ≤ (D : ℚ) / 2 →
      |M - (N : ℚ) / (D : ℚ)| ≤ 1 / 2 := by
    intro M hM
    have : M - (N : ℚ) / (D : ℚ) = (M * (D : ℚ) - (N : ℚ)) / (D : ℚ) := by
      field_simp
    rw [this, abs_div, abs_of_pos hDq, div_le_iff₀ hDq]
    linarith
  apply key
  unfold roundHalfEven
  simp only
  by_cases h1 : 2 * (N % D) < D
  · have h1q : 2 * ((N % D : Nat) : ℚ) < (D : ℚ) := by exact_mod_cast h1
    rw [if_pos h1, abs_le]
    constructor <;> nlinarith
  · rw [if_neg h1]
    by_cases h2 : D < 2 * (N % D)
    · have h2q : (D : ℚ) < 2 * ((N % D : Nat) : ℚ) := by exact_mod_cast h2
      rw [if_pos h2, abs_le]
      push_cast
      constructor <;> nlinarith
    · rw [if_neg h2]
      have h3 : 2 * (N % D) = D := by omega
      have h3q : 2 * ((N % D : Nat) : ℚ) = (D : ℚ) := by exact_mod_cast h3
      split_ifs
      · rw [abs_le]; constructor <;> nlinarith
      · rw [abs_le]; push_cast; constructor <;> nlinarith

theorem scaleFraction_pos (n d : Nat) (k : Int) (hd : 0 < d) : 0 < (scaleFraction n d k).2 := by
  unfold scaleFraction
  split_ifs
  · exact hd
  · exact Nat.mul_pos hd (Nat.pos_pow_of_pos _ (by decide))

theorem scaleFraction_value (n d : Nat) (k : Int) (hd : 0 < d) :
    ((scaleFraction n d k).1 : ℚ) / ((scaleFraction n d k).2 : ℚ)
      = (n : ℚ) / (d : ℚ) * (2 : ℚ) ^ k := by
  have h2 : (2 : ℚ) ≠ 0 := by norm_num
  have hdq : (d : ℚ) ≠ 0 := by exact_mod_cast (Nat.pos_iff_ne_zero.mp hd)
  unfold scaleFraction
  split_ifs with h
  · have hk : k = ((k.toNat : Nat) : Int) := by omega
    conv_rhs => rw [hk, zpow_natCast]
    push_cast
    field_simp
  · have hk : k = -(((-k).toNat : Nat) : Int) := by omega
    conv_rhs => rw [hk, zpow_neg, zpow_natCast]
    push_cast
    field_simp

/-- A finite result of `Double.round` is within half a unit in its last place of the exact
value. -/
theorem round_error (neg s : Bool) (n d m : Nat) (x e : Int) (hn : 0 < n) (hd : 0 < d)
    (h : Double.round neg n d x = Double.fin s m e) :
    |(m : ℚ) * (2 : ℚ) ^ e - (n : ℚ) / (d : ℚ) * (2 : ℚ) ^ x| ≤ (2 : ℚ) ^ e / 2 := by
  have h2 : (2 : ℚ) ≠ 0 := by norm_num
  have hne : n ≠ 0 := by omega
  unfold Double.round at h
  simp only [hne, if_false] at h
  generalize hE : ulpExponent n d x = E at h
  have hfpos := scaleFraction_pos n d (x - E) hd
  have herr := roundHalfEven_error (scaleFraction n d (x - E)).1 (scaleFraction n d (x - E)).2
    hfpos
  rw [scaleFraction_value n d (x - E) hd] at herr
  generalize hM : roundHalfEven (scaleFraction n d (x - E)).1 (scaleFraction n d (x - E)).2 = M
    at h herr
  have hEpos : (0 : ℚ) < (2 : ℚ) ^ E := zpow_pos (by norm_num) E
  -- the error at the exponent `E`
  have hbase : |(M : ℚ) * (2 : ℚ) ^ E - (n : ℚ) / (d : ℚ) * (2 : ℚ) ^ x| ≤ (2 : ℚ) ^ E / 2 := by
    have hx : (2 : ℚ) ^ x = (2 : ℚ) ^ (x - E) * (2 : ℚ) ^ E := by
      rw [← zpow_add₀ h2]; congr 1; ring
    have : (M : ℚ) * (2 : ℚ) ^ E - (n : ℚ) / (d : ℚ) * (2 : ℚ) ^ x
        = ((M : ℚ) - (n : ℚ) / (d : ℚ) * (2 : ℚ) ^ (x - E)) * (2 : ℚ) ^ E := by
      rw [hx]; ring
    rw [this, abs_mul, abs_of_pos hEpos]
    calc |(M : ℚ) - (n : ℚ) / (d : ℚ) * (2 : ℚ) ^ (x - E)| * (2 : ℚ) ^ E
        ≤ 1 / 2 * (2 : ℚ) ^ E := mul_le_mul_of_nonneg_right herr (le_of_lt hEpos)
      _ = (2 : ℚ) ^ E / 2 := by ring
  by_cases hM53 : M = 2 ^ 53
  · simp only [hM53, if_true] at h
    split_ifs at h
    injection h with _ hm he
    subst hm he
    have hE1 : (2 : ℚ) ^ (E + 1) = (2 : ℚ) ^ E * 2 := by
      rw [zpow_add₀ h2, zpow_one]
    rw [hM53] at hbase
    rw [hE1]
    push_cast at hbase ⊢
    have e1 : (4503599627370496 : ℚ) * ((2 : ℚ) ^ E * 2)
        = 9007199254740992 * (2 : ℚ) ^ E := by ring
    rw [e1]
    linarith
  · simp only [hM53, if_false] at h
    split_ifs at h
    injection h with _ hm he
    subst hm he
    exact hbase

theorem toRat_sub_same_sign (s : Bool) (m m' : Nat) (e e' : Int) :
    |(Double.fin s m e).toRat - (Double.fin s m' e').toRat|
      = |(m : ℚ) * (2 : ℚ) ^ e - (m' : ℚ) * (2 : ℚ) ^ e'| := by
  unfold Double.toRat
  cases s
  · simp
  · simp only [if_true, neg_mul, one_mul]
    rw [← abs_neg]
    congr 1
    ring

/-- The product `D * (W / D)` in `double` arithmetic is within half a unit in its last place,
plus `|D|` times half a unit in the last place of the stored quotient, of `W`. -/
theorem mul_div_error (D : Int) (hD : D ≠ 0) (hDlt : D.natAbs < 2 ^ 53)
    (sW : Bool) (mW : Nat) (eW : Int) (hm : mW ≠ 0)
    (sq : Bool) (mq : Nat) (eq : Int)
    (hq : Double.div (Double.fin sW mW eW) (Double.ofInt D) = Double.fin sq mq eq)
    (sr : Bool) (mr : Nat) (er : Int)
    (hr : Double.mul (Double.ofInt D) (Double.fin sq mq eq) = Double.fin sr mr er) :
    sr = sW
    ∧ |(mq : ℚ) * (2 : ℚ) ^ eq * (D.natAbs : ℚ) - (mW : ℚ) * (2 : ℚ) ^ eW|
        ≤ (D.natAbs : ℚ) * ((2 : ℚ) ^ eq / 2)
    ∧ |(mr : ℚ) * (2 : ℚ) ^ er - (mq : ℚ) * (2 : ℚ) ^ eq * (D.natAbs : ℚ)| ≤ (2 : ℚ) ^ er / 2
    ∧ |(Double.fin sr mr er).toRat - (Double.fin sW mW eW).toRat|
        ≤ (2 : ℚ) ^ er / 2 + (D.natAbs : ℚ) * ((2 : ℚ) ^ eq / 2) := by
  have hn : 0 < D.natAbs := Int.natAbs_pos.mpr hD
  obtain ⟨hlo, hhi, hpos⟩ := bitLength_spec D.natAbs hn
  have hL : bitLength D.natAbs - 1 < 53 := pow_two_lt_of_le_of_lt hlo hDlt
  have hp2 : 0 < 2 ^ (53 - bitLength D.natAbs) := Nat.pos_pow_of_pos _ (by decide)
  have hmDpos : 0 < D.natAbs * 2 ^ (53 - bitLength D.natAbs) := Nat.mul_pos hn hp2
  have hmD : D.natAbs * 2 ^ (53 - bitLength D.natAbs) ≠ 0 := by omega
  have h2 : (2 : ℚ) ≠ 0 := by norm_num
  have hDpos : (0 : ℚ) < (D.natAbs : ℚ) := by exact_mod_cast hn
  -- the converted delta is exact
  have hDval : ((D.natAbs * 2 ^ (53 - bitLength D.natAbs) : Nat) : ℚ)
      * (2 : ℚ) ^ ((bitLength D.natAbs : Int) - 53) = (D.natAbs : ℚ) := by
    have he : ((bitLength D.natAbs : Int) - 53) = -((53 - bitLength D.natAbs : Nat) : Int) := by
      omega
    have hne : ((2 : ℚ) ^ (53 - bitLength D.natAbs)) ≠ 0 := pow_ne_zero _ h2
    rw [he, zpow_neg, zpow_natCast]
    push_cast
    field_simp
  rw [ofInt_exact D hD hDlt] at hq hr
  generalize hmDdef : D.natAbs * 2 ^ (53 - bitLength D.natAbs) = mD at hq hr hmDpos hmD hDval
  generalize heDdef : (bitLength D.natAbs : Int) - 53 = eD at hq hr hDval
  have hmDq : (0 : ℚ) < (mD : ℚ) := by exact_mod_cast hmDpos
  have heDpos : (0 : ℚ) < (2 : ℚ) ^ eD := zpow_pos (by norm_num) eD
  -- the quotient
  simp only [Double.div, hmD, hm, if_false] at hq
  have hsq : sq = xor sW (decide (D < 0)) := round_sign _ _ _ _ _ _ _ hq
  have herr1 := round_error _ _ _ _ _ _ _ (Nat.pos_of_ne_zero hm) hmDpos hq
  have hquot : (mW : ℚ) / (mD : ℚ) * (2 : ℚ) ^ (eW - eD)
      = (mW : ℚ) * (2 : ℚ) ^ eW / (D.natAbs : ℚ) := by
    rw [← hDval, zpow_sub₀ h2]
    field_simp
  rw [hquot] at herr1
  have hA : |(mq : ℚ) * (2 : ℚ) ^ eq * (D.natAbs : ℚ) - (mW : ℚ) * (2 : ℚ) ^ eW|
      ≤ (D.natAbs : ℚ) * ((2 : ℚ) ^ eq / 2) := by
    have : (mq : ℚ) * (2 : ℚ) ^ eq * (D.natAbs : ℚ) - (mW : ℚ) * (2 : ℚ) ^ eW
        = ((mq : ℚ) * (2 : ℚ) ^ eq - (mW : ℚ) * (2 : ℚ) ^ eW / (D.natAbs : ℚ))
          * (D.natAbs : ℚ) := by
      field_simp
    rw [this, abs_mul, abs_of_pos hDpos, mul_comm]
    exact mul_le_mul_of_nonneg_left herr1 (le_of_lt hDpos)
  -- the product
  have hsign : xor (decide (D < 0)) sq = sW := by
    rw [hsq]; cases sW <;> cases (decide (D < 0)) <;> rfl
  simp only [Double.mul, hsign] at hr
  have hsr : sr = sW := round_sign _ _ _ _ _ _ _ hr
  have hB : |(mr : ℚ) * (2 : ℚ) ^ er - (mq : ℚ) * (2 : ℚ) ^ eq * (D.natAbs : ℚ)|
      ≤ (2 : ℚ) ^ er / 2 := by
    rcases Nat.eq_zero_or_pos mq with hz | hp
    · subst hz
      simp only [Nat.mul_zero, Double.round, if_true] at hr
      injection hr with _ hmr _
      subst hmr
      simp only [Nat.cast_zero, zero_mul, sub_zero, abs_zero]
      positivity
    · have herr2 := round_error _ _ _ _ _ _ _ (Nat.mul_pos hmDpos hp) (by decide : 0 < 1) hr
      have hprod : ((mD * mq : Nat) : ℚ) / ((1 : Nat) : ℚ) * (2 : ℚ) ^ (eD + eq)
          = (mq : ℚ) * (2 : ℚ) ^ eq * (D.natAbs : ℚ) := by
        rw [← hDval, zpow_add₀ h2]
        push_cast
        ring
      rw [hprod] at herr2
      exact herr2
  refine ⟨hsr, hA, hB, ?_⟩
  rw [hsr, toRat_sub_same_sign]
  calc |(mr : ℚ) * (2 : ℚ) ^ er - (mW : ℚ) * (2 : ℚ) ^ eW|
      ≤ |(mr : ℚ) * (2 : ℚ) ^ er - (mq : ℚ) * (2 : ℚ) ^ eq * (D.natAbs : ℚ)|
        + |(mq : ℚ) * (2 : ℚ) ^ eq * (D.natAbs : ℚ) - (mW : ℚ) * (2 : ℚ) ^ eW| :=
        abs_sub_le _ _ _
    _ ≤ (2 : ℚ) ^ er / 2 + (D.natAbs : ℚ) * ((2 : ℚ) ^ eq / 2) := add_le_add hB hA

theorem half_ulp_le (m : Nat) (e : Int) (h : 2 ^ 52 ≤ m) :
    (2 : ℚ) ^ e / 2 ≤ 1 / 2 ^ 53 * ((m : ℚ) * (2 : ℚ) ^ e) := by
  have hm : ((2 : ℚ) ^ 52) ≤ (m : ℚ) := by exact_mod_cast h
  have hpos : (0 : ℚ) < (2 : ℚ) ^ e := zpow_pos (by norm_num) e
  have : (2 : ℚ) ^ e / 2 = 1 / 2 ^ 53 * ((2 : ℚ) ^ 52 * (2 : ℚ) ^ e) := by
    norm_num
    ring
  rw [this]
  apply mul_le_mul_of_nonneg_left _ (by positivity)
  exact mul_le_mul_of_nonneg_right hm (le_of_lt hpos)

/-- When the stored quotient and the product are normal numbers, `D * (W / D)` in `double`
arithmetic is `W` up to the relative error `2^-52 + 2^-103`. -/
theorem mul_div_relative_error (D : Int) (hD : D ≠ 0) (hDlt : D.natAbs < 2 ^ 53)
    (sW : Bool) (mW : Nat) (eW : Int) (hm : mW ≠ 0)
    (sq : Bool) (mq : Nat) (eq : Int)
    (hq : Double.div (Double.fin sW mW eW) (Double.ofInt D) = Double.fin sq mq eq)
    (sr : Bool) (mr : Nat) (er : Int)
    (hr : Double.mul (Double.ofInt D) (Double.fin sq mq eq) = Double.fin sr mr er)
    (hnq : 2 ^ 52 ≤ mq) (hnr : 2 ^ 52 ≤ mr) :
    |(Double.fin sr mr er).toRat - (Double.fin sW mW eW).toRat|
      ≤ (1 / 2 ^ 52 + 1 / 2 ^ 103) * |(Double.fin sW mW eW).toRat| := by
  obtain ⟨hsr, hA, hB, _⟩ := mul_div_error D hD hDlt sW mW eW hm sq mq eq hq sr mr er hr
  have hDpos : (0 : ℚ) ≤ (D.natAbs : ℚ) := by positivity
  have hq1 := half_ulp_le mq eq hnq
  have hr1 := half_ulp_le mr er hnr
  rw [hsr, toRat_sub_same_sign, abs_toRat_fin]
  generalize (mW : ℚ) * (2 : ℚ) ^ eW = a at hA ⊢
  generalize hc : (mr : ℚ) * (2 : ℚ) ^ er = c at hB hr1 ⊢
  have hb0 : (0 : ℚ) ≤ (mq : ℚ) * (2 : ℚ) ^ eq := by positivity
  have hA1 : |(mq : ℚ) * (2 : ℚ) ^ eq * (D.natAbs : ℚ) - a|
      ≤ 1 / 2 ^ 53 * ((mq : ℚ) * (2 : ℚ) ^ eq * (D.natAbs : ℚ)) := by
    calc |(mq : ℚ) * (2 : ℚ) ^ eq * (D.natAbs : ℚ) - a|
        ≤ (D.natAbs : ℚ) * ((2 : ℚ) ^ eq / 2) := hA
      _ ≤ (D.natAbs : ℚ) * (1 / 2 ^ 53 * ((mq : ℚ) * (2 : ℚ) ^ eq)) :=
          mul_le_mul_of_nonneg_left hq1 hDpos
      _ = 1 / 2 ^ 53 * ((mq : ℚ) * (2 : ℚ) ^ eq * (D.natAbs : ℚ)) := by ring
  have hB1 : |c - (mq : ℚ) * (2 : ℚ) ^ eq * (D.natAbs : ℚ)| ≤ 1 / 2 ^ 53 * c :=
    le_trans hB hr1
  generalize (mq : ℚ) * (2 : ℚ) ^ eq * (D.natAbs : ℚ) = b at hA1 hB1
  rw [abs_le] at hA1 hB1 ⊢
  obtain ⟨hA2, hA3⟩ := hA1
  obtain ⟨hB2, hB3⟩ := hB1
  norm_num at hA2 hA3 hB2 hB3 ⊢
  constructor <;> linarith

/-- C5 (the claim at a counterexample): with offset 0, raw average 49 and known weight 1.0,
`load_cell_calibrate` succeeds and the following `load_cell_read_weight` at the same raw
average succeeds and returns 9007199254740991 * 2^-53 = 0.99999999999999988..., which does not
compare equal to the known weight 1.0. -/
theorem C5_counterexample :
    scenarioCalibrateRead = some (0, 0, some (Double.fin false 9007199254740991 (-53)))
    ∧ Double.eq (Double.fin false 9007199254740991 (-53)) Double.one = false
    ∧ Double.eq Double.one Double.zero = false
    ∧ sensorInit = some sensorMain
    ∧ hx711_read_average 1 env49 sensorMain.hx 1 (some 0) bus0 = some (0, some 49, busFirst49)
    ∧ hx711_read_average 1 env49 sensorMain.hx 1 (some 0) (sensorLocked busFirst49)
        = some (0, some 49, busSecond49) := by
  refine ⟨?_, ?_, ?_, rfl, ?_, ?_⟩
  · rfl
  · decide
  · decide
  · rfl
  · rfl

/-- C5 (amended): for every known weight W that does not compare equal to 0.0, every stored
offset O and every raw average R with delta D = R - O nonzero and representable as an `int`,
`load_cell_calibrate` succeeds and sets scaleFactor to the `double` quotient W / D (the
division is by the exactly converted delta, not by R) leaving the offset unchanged, and a
following `load_cell_read_weight` whose raw average is again R succeeds and returns the
`double` product D * scaleFactor.  For finite W that product is exactly W whenever W is a
binary64 number and the stored quotient is exact (D * scaleFactor = W as rationals); in
general, when the scale factor and the product are finite, it differs from W by at most half a
unit in the last place of the product plus |D| times half a unit in the last place of the scale
factor, which is a relative error of at most 2^-52 + 2^-103 when both are normal numbers. -/
theorem C5_calibrate_then_read (fuel fuel1 : Nat) (env : Env) (st : load_cell_sensor_t)
    (W : Double) (samples samples1 R : Int) (out0 : Double) (bus bus1 bus2 : Bus)
    (hW : Double.eq W Double.zero = false)
    (hD : R - st.offset ≠ 0) (hlo : -2 ^ 31 ≤ R - st.offset) (hhi : R - st.offset < 2 ^ 31)
    (hcal : hx711_read_average fuel env st.hx samples (some 0) bus = some (0, some R, bus1))
    (hread : hx711_read_average fuel1 env st.hx samples1 (some 0) (sensorLocked bus1)
      = some (0, some R, bus2)) :
    load_cell_calibrate fuel env (some st) W samples bus
      = some (0, some { st with scale_factor := Double.div W (Double.ofInt (R - st.offset)) },
          sensorLocked bus1)
    ∧ load_cell_read_weight fuel1 env
        (some { st with scale_factor := Double.div W (Double.ofInt (R - st.offset)) })
        samples1 (some out0) (sensorLocked bus1)
      = some (0, some (Double.mul (Double.ofInt (R - st.offset))
                        (Double.div W (Double.ofInt (R - st.offset)))), sensorLocked bus2)
    ∧ (Double.ofInt (R - st.offset)).toRat = ((R - st.offset : Int) : ℚ)
    ∧ (∀ (sW : Bool) (mW : Nat) (eW : Int) (sq : Bool) (mq : Nat) (eq : Int),
        W = Double.fin sW mW eW → W.IsBinary64 →
        Double.div W (Double.ofInt (R - st.offset)) = Double.fin sq mq eq →
        ((R - st.offset : Int) : ℚ) * (Double.fin sq mq eq).toRat = W.toRat →
        Double.mul (Double.ofInt (R - st.offset))
          (Double.div W (Double.ofInt (R - st.offset))) = W)
    ∧ (∀ (sW : Bool) (mW : Nat) (eW : Int) (sq : Bool) (mq : Nat) (eq : Int)
        (sr : Bool) (mr : Nat) (er : Int),
        W = Double.fin sW mW eW →
        Double.div W (Double.ofInt (R - st.offset)) = Double.fin sq mq eq →
        Double.mul (Double.ofInt (R - st.offset))
          (Double.div W (Double.ofInt (R - st.offset))) = Double.fin sr mr er →
        |(Double.fin sr mr er).toRat - W.toRat|
            ≤ (2 : ℚ) ^ er / 2 + ((R - st.offset).natAbs : ℚ) * ((2 : ℚ) ^ eq / 2)
        ∧ (2 ^ 52 ≤ mq → 2 ^ 52 ≤ mr →
            |(Double.fin sr mr er).toRat - W.toRat|
              ≤ (1 / 2 ^ 52 + 1 / 2 ^ 103) * |W.toRat|)) := by
  have hw : wrapInt 32 (R - st.offset) = R - st.offset := wrapInt32_of_range _ hlo hhi
  have habs : (R - st.offset).natAbs < 2 ^ 53 := by omega
  have hm : ∀ (sW : Bool) (mW : Nat) (eW : Int), W = Double.fin sW mW eW → mW ≠ 0 := by
    intro sW mW eW hWfin h0
    rw [hWfin, h0] at hW
    simp [Double.eq, Double.zero] at hW
  have hcalibrate : load_cell_calibrate fuel env (some st) W samples bus
      = some (0, some { st with scale_factor := Double.div W (Double.ofInt (R - st.offset)) },
          sensorLocked bus1) := by
    unfold load_cell_calibrate
    simp [hW, hcal, hw, sensorLocked]
  have hweight : load_cell_read_weight fuel1 env
        (some { st with scale_factor := Double.div W (Double.ofInt (R - st.offset)) })
        samples1 (some out0) (sensorLocked bus1)
      = some (0, some (Double.mul (Double.ofInt (R - st.offset))
                        (Double.div W (Double.ofInt (R - st.offset)))), sensorLocked bus2) := by
    unfold load_cell_read_weight
    simp only [sensorLocked] at hread ⊢
    simp [hread, hw]
  refine ⟨hcalibrate, hweight, toRat_ofInt _ habs, ?_, ?_⟩
  · intro sW mW eW sq mq eq hWfin hcanon hq hex
    have hm0 := hm sW mW eW hWfin
    subst hWfin
    rw [hq]
    exact mul_div_exact _ hD habs sW mW eW hcanon hm0 sq mq eq hq hex
  · intro sW mW eW sq mq eq sr mr er hWfin hq hr
    have hm0 := hm sW mW eW hWfin
    subst hWfin
    rw [hq] at hr
    exact ⟨(mul_div_error _ hD habs sW mW eW hm0 sq mq eq hq sr mr er hr).2.2.2,
      fun hnq hnr =>
        mul_div_relative_error _ hD habs sW mW eW hm0 sq mq eq hq sr mr er hr hnq hnr⟩

theorem one_isBinary64 : Double.one.IsBinary64 :=
  ⟨by decide, by decide, by decide, Or.inl (by decide)⟩

theorem half_exact :
    (((49 - sensorOffset47.offset : Int) : ℚ)) * (Double.fin false (2 ^ 52) (-53)).toRat
      = Double.one.toRat := by
  simp only [Double.toRat, Double.one, sensorOffset47]
  norm_num [zpow_neg]

theorem C5_witness :
    Double.eq Double.one Double.zero = false
    ∧ 49 - sensorOffset47.offset ≠ 0
    ∧ hx711_read_average 1 env49 sensorOffset47.hx 1 (some 0) bus0
        = some (0, some 49, busFirst49)
    ∧ hx711_read_average 1 env49 sensorOffset47.hx 1 (some 0) (sensorLocked busFirst49)
        = some (0, some 49, busSecond49)
    ∧ load_cell_calibrate 1 env49 (some sensorOffset47) Double.one 1 bus0
      = some (0, some sensorCalibrated47, sensorLocked busFirst49)
    ∧ load_cell_read_weight 1 env49 (some sensorCalibrated47) 1 (some Double.zero)
        (sensorLocked busFirst49)
      = some (0, some (Double.mul (Double.ofInt (49 - sensorOffset47.offset))
                        (Double.div Double.one (Double.ofInt (49 - sensorOffset47.offset)))),
          sensorLocked busSecond49)
    ∧ Double.mul (Double.ofInt (49 - sensorOffset47.offset))
        (Double.div Double.one (Double.ofInt (49 - sensorOffset47.offset))) = Double.one
    ∧ 49 - sensorMain.offset ≠ 0
    ∧ |(Double.fin false 9007199254740991 (-53)).toRat - Double.one.toRat|
        ≤ (1 / 2 ^ 52 + 1 / 2 ^ 103) * |Double.one.toRat| :=
  have h := C5_calibrate_then_read 1 1 env49 sensorOffset47 Double.one 1 1 49 Double.zero bus0
    busFirst49 busSecond49 (by decide) (by decide) (by decide) (by decide) rfl rfl
  have g := C5_calibrate_then_read 1 1 env49 sensorMain Double.one 1 1 49 Double.zero bus0
    busFirst49 busSecond49 (by decide) (by decide) (by decide) (by decide) rfl rfl
  ⟨by decide, by decide, rfl, rfl, h.1, h.2.1,
   h.2.2.2.1 false (2 ^ 52) (-52) false (2 ^ 52) (-53) rfl one_isBinary64 (by rfl) half_exact,
   by decide,
   (g.2.2.2.2 false (2 ^ 52) (-52) false 5882252574524729 (-58) false 9007199254740991 (-53)
      rfl (by rfl) (by rfl)).2 (by decide) (by decide)⟩

theorem C6_witness :
    sensorMain.scale_factor = Double.fin false (2 ^ 52) (-52)
    ∧ hx711_read_average 1 env49 sensorMain.hx 1 (some 0) bus0 = some (0, some 49, busFirst49)
    ∧ hx711_read_average 1 env49 sensorMain.hx 1 (some 0) (sensorLocked busFirst49)
        = some (0, some 49, busSecond49)
    ∧ load_cell_tare 1 env49 (some sensorMain) 1 bus0
      = some (0, some { sensorMain with offset := 49 }, sensorLocked busFirst49)
    ∧ load_cell_read_weight 1 env49 (some { sensorMain with offset := 49 }) 1
        (some Double.one) (sensorLocked busFirst49)
      = some (0, some (Double.fin false 0 (-1074)), sensorLocked busSecond49) :=
  have h := C6_tare_then_read_zero 1 1 env49 sensorMain 1 1 49 Double.one bus0 busFirst49
    busSecond49 false (2 ^ 52) (-52) rfl rfl rfl
  ⟨rfl, rfl, rfl, h.1, h.2.1⟩

end HX711
